import Mathlib

/-!
Verification of the `revrseai` schema/data-model layer.

`JValue` is a shallow embedding of the JSON values that flow through the
library (`dict`s are ordered association lists, as Python dicts preserve
insertion order).  `SchemaObject` embeds the dataclass of
`revrseai/models/schema.py`; its scalar fields hold raw `JValue`s exactly as
the Python implementation stores whatever `data.get(...)` returns.
Operations that can raise in Python return `Option`/`Except` values, with
`none`/`error` standing for the raised exception.
-/

namespace Revrseai

/-- A JSON value.  Objects are ordered association lists: Python dicts
preserve insertion order, which the schema layer relies on for rendering. -/
inductive JValue : Type where
  | null : JValue
  | bool (b : Bool) : JValue
  | int (n : Int) : JValue
  | num (q : Rat) : JValue
  | str (s : String) : JValue
  | arr (elems : List JValue) : JValue
  | obj (entries : List (String × JValue)) : JValue

/-- Python truthiness of a JSON value (`bool(v)`): `None`, `False`, `0`,
`0.0`, `""`, `[]` and `{}` are falsy, everything else truthy. -/
def JValue.truthy : JValue → Bool
  | .null => false
  | .bool b => b
  | .int n => n != 0
  | .num q => q != 0
  | .str s => !s.isEmpty
  | .arr l => !l.isEmpty
  | .obj l => !l.isEmpty

mutual

/-- Structural equality of JSON values (Python `==` on parsed JSON data). -/
def JValue.beq : JValue → JValue → Bool
  | .null, .null => true
  | .bool a, .bool b => a == b
  | .int a, .int b => a == b
  | .num a, .num b => a == b
  | .str a, .str b => a == b
  | .arr a, .arr b => JValue.beqList a b
  | .obj a, .obj b => JValue.beqEntries a b
  | _, _ => false

def JValue.beqList : List JValue → List JValue → Bool
  | [], [] => true
  | a :: as', b :: bs' => JValue.beq a b && JValue.beqList as' bs'
  | _, _ => false

def JValue.beqEntries : List (String × JValue) → List (String × JValue) → Bool
  | [], [] => true
  | (k, a) :: as', (l, b) :: bs' => k == l && JValue.beq a b && JValue.beqEntries as' bs'
  | _, _ => false

end

instance instBEqJValue : BEq JValue := ⟨JValue.beq⟩

/-- The size of a value found by association-list lookup is strictly below
the size of the list; this bounds the recursion of `from_dict`. -/
theorem sizeOf_lookup {l : List (String × JValue)} {k : String} {v : JValue}
    (h : l.lookup k = some v) : sizeOf v < sizeOf l := by
  induction l with
  | nil => simp [List.lookup] at h
  | cons p t ih =>
    obtain ⟨a, b⟩ := p
    rw [List.lookup] at h
    by_cases hk : k == a
    · simp [hk] at h
      subst h
      simp
      omega
    · simp [hk] at h
      have := ih h
      simp
      omega

/-- The size of an entry's value is strictly below the size of the whole
association list. -/
theorem sizeOf_entry {l : List (String × JValue)} {k : String} {v : JValue}
    (h : (k, v) ∈ l) : sizeOf v < sizeOf l := by
  induction l with
  | nil => simp at h
  | cons p t ih =>
    rcases List.mem_cons.mp h with h1 | h2
    · subst h1
      simp
      omega
    · have := ih h2
      simp
      omega

/-- The embedding of the `SchemaObject` dataclass
(`revrseai/models/schema.py`).  Scalar fields hold the raw values that
Python's `data.get(...)` stored (with `JValue.null` for Python `None`):
`type_`, `format`, `description`, `title`, `nullable`, `enum`,
`example_val` (source name `example`, a Lean keyword), `required`.
`properties` is the parsed ordered mapping of child schemas, `items` the
optional parsed child schema, `_extra` the passthrough bag. -/
inductive SchemaObject : Type where
  | mk
    (type_ : JValue)
    (format : JValue)
    (description : JValue)
    (title : JValue)
    (nullable : JValue)
    (enum : JValue)
    (example_val : JValue)
    (properties : List (String × SchemaObject))
    (required : JValue)
    (items : Option SchemaObject)
    (_extra : List (String × JValue))

def SchemaObject.type_ : SchemaObject → JValue
  | .mk t _ _ _ _ _ _ _ _ _ _ => t

def SchemaObject.format : SchemaObject → JValue
  | .mk _ f _ _ _ _ _ _ _ _ _ => f

def SchemaObject.description : SchemaObject → JValue
  | .mk _ _ d _ _ _ _ _ _ _ _ => d

def SchemaObject.title : SchemaObject → JValue
  | .mk _ _ _ ti _ _ _ _ _ _ _ => ti

def SchemaObject.nullable : SchemaObject → JValue
  | .mk _ _ _ _ nu _ _ _ _ _ _ => nu

def SchemaObject.enum : SchemaObject → JValue
  | .mk _ _ _ _ _ en _ _ _ _ _ => en

def SchemaObject.example_val : SchemaObject → JValue
  | .mk _ _ _ _ _ _ ex _ _ _ _ => ex

def SchemaObject.properties : SchemaObject → List (String × SchemaObject)
  | .mk _ _ _ _ _ _ _ props _ _ _ => props

def SchemaObject.required : SchemaObject → JValue
  | .mk _ _ _ _ _ _ _ _ req _ _ => req

def SchemaObject.items : SchemaObject → Option SchemaObject
  | .mk _ _ _ _ _ _ _ _ _ it _ => it

def SchemaObject._extra : SchemaObject → List (String × JValue)
  | .mk _ _ _ _ _ _ _ _ _ _ ex => ex

/-- `SchemaObject()` with all dataclass defaults (`None`, `False`, `{}`,
`[]`). -/
def SchemaObject.defaultObj : SchemaObject :=
  .mk .null .null .null .null (.bool false) .null .null [] (.arr []) none []

/-- The ten keys `from_dict` treats as known (`known_fields` in the
source). -/
def knownFields : List String :=
  ["type", "format", "description", "title", "nullable",
   "enum", "example", "properties", "required", "items"]

/-- The non-recursive field extraction of `from_dict`: `data.get(...)` with
the source's defaults, and the `extra` comprehension over unknown keys. -/
def SchemaObject.build (data : List (String × JValue))
    (props : List (String × SchemaObject)) (itemsObj : Option SchemaObject) :
    SchemaObject :=
  .mk
    ((data.lookup "type").getD .null)
    ((data.lookup "format").getD .null)
    ((data.lookup "description").getD .null)
    ((data.lookup "title").getD .null)
    ((data.lookup "nullable").getD (.bool false))
    ((data.lookup "enum").getD .null)
    ((data.lookup "example").getD .null)
    props
    ((data.lookup "required").getD (.arr []))
    itemsObj
    (data.filter (fun p => !(knownFields.contains p.1)))

mutual

/-- `SchemaObject.from_dict`.  Returns `none` exactly when Python raises:
the only failure is a `"properties"` value that is not a mapping (its
`.items()` raises `AttributeError`), possibly inside a nested parse. -/
def SchemaObject.from_dict (data : List (String × JValue)) : Option SchemaObject :=
  match hp : data.lookup "properties" with
  | some (.obj pkvs) => SchemaObject.fromParts data pkvs
  | some _ => none
  | none => SchemaObject.fromParts data []
termination_by (sizeOf data, 2)
decreasing_by
  · simp_wf
    have h1 : sizeOf (JValue.obj pkvs) < sizeOf data := sizeOf_lookup hp
    simp at h1
    rw [Prod.lex_iff]
    simp
    omega
  · simp_wf
    have h1 : 1 ≤ sizeOf data := by
      cases data with
      | nil => simp
      | cons a t => simp; omega
    rw [Prod.lex_iff]
    simp
    omega

/-- Assembles the parse result once the `properties` payload `pkvs` has been
extracted (`[]` when the key is absent): parses each property value (a
non-mapping value becomes a default `SchemaObject()`), parses `items` only
if it is a mapping, and splits off the unknown keys into `_extra`. -/
def SchemaObject.fromParts (data : List (String × JValue))
    (pkvs : List (String × JValue)) : Option SchemaObject :=
  match SchemaObject.fromProps pkvs with
  | none => none
  | some props =>
    match hi : data.lookup "items" with
    | some (.obj ikvs) =>
      match SchemaObject.from_dict ikvs with
      | none => none
      | some itemsObj => some (SchemaObject.build data props (some itemsObj))
    | some _ => some (SchemaObject.build data props none)
    | none => some (SchemaObject.build data props none)
termination_by (max (sizeOf data) (sizeOf pkvs), 1)
decreasing_by
  · simp_wf
    have h1 : sizeOf pkvs ≤ max (sizeOf data) (sizeOf pkvs) := Nat.le_max_right _ _
    rw [Prod.lex_iff]
    simp
    omega
  · simp_wf
    have h1 : sizeOf (JValue.obj ikvs) < sizeOf data := sizeOf_lookup hi
    have h2 : sizeOf data ≤ max (sizeOf data) (sizeOf pkvs) := Nat.le_max_left _ _
    simp at h1
    rw [Prod.lex_iff]
    simp
    omega

/-- Parses the entries of a `properties` mapping in order; a value that is
not a mapping yields a default `SchemaObject()` (tolerant parsing). -/
def SchemaObject.fromProps (pkvs : List (String × JValue)) :
    Option (List (String × SchemaObject)) :=
  match pkvs with
  | [] => some []
  | (n, .obj pm) :: rest =>
    match SchemaObject.from_dict pm with
    | none => none
    | some s =>
      match SchemaObject.fromProps rest with
      | none => none
      | some r => some ((n, s) :: r)
  | (n, _) :: rest =>
    match SchemaObject.fromProps rest with
    | none => none
    | some r => some ((n, SchemaObject.defaultObj) :: r)
termination_by (sizeOf pkvs, 0)
decreasing_by
  all_goals simp_wf
  all_goals rw [Prod.lex_iff]
  all_goals simp
  all_goals omega

end

/-- Python `dict.__setitem__` on an ordered association list: an existing
key is updated in place, a new key is appended. -/
def dictInsert (d : List (String × JValue)) (k : String) (v : JValue) :
    List (String × JValue) :=
  if d.any (fun p => p.1 == k) then
    d.map (fun p => if p.1 == k then (k, v) else p)
  else d ++ [(k, v)]

/-- Python `dict.update`: each entry of `u` is inserted in order. -/
def dictUpdate (d u : List (String × JValue)) : List (String × JValue) :=
  u.foldl (fun acc p => dictInsert acc p.1 p.2) d

mutual

/-- `SchemaObject.to_dict`: the typed emission followed by the
`result.update(self._extra)` merge. -/
def SchemaObject.to_dict (s : SchemaObject) : List (String × JValue) :=
  dictUpdate (SchemaObject.typedFields s) s._extra
termination_by (sizeOf s, 1)
decreasing_by
  · simp_wf
    rw [Prod.lex_iff]
    simp

/-- The typed part of `to_dict`: the known fields in the source's fixed
order, each guarded by the source's truthiness / non-`None` test.
Building `result` by successive insertions of distinct fresh keys is the
same as this concatenation. -/
def SchemaObject.typedFields : SchemaObject → List (String × JValue)
  | .mk t f d ti nu en ex props req it _ =>
    (if t.truthy then [("type", t)] else []) ++
    (if f.truthy then [("format", f)] else []) ++
    (if d.truthy then [("description", d)] else []) ++
    (if ti.truthy then [("title", ti)] else []) ++
    (if nu.truthy then [("nullable", .bool true)] else []) ++
    (if en.truthy then [("enum", en)] else []) ++
    (match ex with
     | .null => []
     | _ => [("example", ex)]) ++
    (if props.isEmpty then []
     else [("properties", .obj (SchemaObject.toProps props))]) ++
    (if req.truthy then [("required", req)] else []) ++
    (match it with
     | some i => [("items", .obj (SchemaObject.to_dict i))]
     | none => [])
termination_by s => (sizeOf s, 0)
decreasing_by
  all_goals simp_wf
  all_goals rw [Prod.lex_iff]
  all_goals try simp
  all_goals omega

/-- The `properties` comprehension of `to_dict`, in insertion order. -/
def SchemaObject.toProps : List (String × SchemaObject) → List (String × JValue)
  | [] => []
  | (n, s) :: rest => (n, .obj (SchemaObject.to_dict s)) :: SchemaObject.toProps rest
termination_by l => (sizeOf l, 0)
decreasing_by
  all_goals simp_wf
  all_goals rw [Prod.lex_iff]
  all_goals try simp
  all_goals omega

end

/-- CPython `repr` of a float, modelled for the floats this layer actually
produces (floats of integral value, such as the `0.0` example for
`"number"`). -/
def floatRepr (q : Rat) : String :=
  if q.den = 1 then toString q.num ++ ".0" else toString q

/-- An ASCII single quote, for Python `repr` of strings. -/
def singleQuote : String := String.singleton (Char.ofNat 39)

mutual

/-- Python `str()` of a JSON value: a string is rendered as itself,
anything else by its `repr`. -/
def pyStr : JValue → String
  | .str s => s
  | .null => "None"
  | .bool true => "True"
  | .bool false => "False"
  | .int n => toString n
  | .num q => floatRepr q
  | .arr xs => "[" ++ String.intercalate ", " (pyReprList xs) ++ "]"
  | .obj kvs => "\x7b" ++ String.intercalate ", " (pyReprEntries kvs) ++ "\x7d"
termination_by v => sizeOf v
decreasing_by
  all_goals simp_wf
  all_goals try simp
  all_goals omega

/-- Python `repr()` of a JSON value (strings quoted; modelled for strings
without quotes, backslashes or control characters, the only ones this
layer renders). -/
def pyRepr : JValue → String
  | .str s => singleQuote ++ s ++ singleQuote
  | .null => "None"
  | .bool true => "True"
  | .bool false => "False"
  | .int n => toString n
  | .num q => floatRepr q
  | .arr xs => "[" ++ String.intercalate ", " (pyReprList xs) ++ "]"
  | .obj kvs => "\x7b" ++ String.intercalate ", " (pyReprEntries kvs) ++ "\x7d"
termination_by v => sizeOf v
decreasing_by
  all_goals simp_wf
  all_goals try simp
  all_goals omega

def pyReprList : List JValue → List String
  | [] => []
  | x :: rest => pyRepr x :: pyReprList rest
termination_by xs => sizeOf xs
decreasing_by
  all_goals simp_wf
  all_goals try simp
  all_goals omega

def pyReprEntries : List (String × JValue) → List String
  | [] => []
  | (k, v) :: rest =>
    (singleQuote ++ k ++ singleQuote ++ ": " ++ pyRepr v) :: pyReprEntries rest
termination_by kvs => sizeOf kvs
decreasing_by
  all_goals simp_wf
  all_goals try simp
  all_goals omega

end

/-- Python `v == s` between a JSON value and a string literal. -/
def JValue.isStr (v : JValue) (s : String) : Bool :=
  match v with
  | .str t => t == s
  | _ => false

/-- Python `container[0]` on a JSON value: first element of a non-empty
list, first character of a non-empty string; everything else raises
(`TypeError`, `KeyError` or `IndexError`). -/
def pyFirstElem : JValue → Option JValue
  | .arr (x :: _) => some x
  | .str s => if s.isEmpty then none else some (.str (s.take 1))
  | _ => none

mutual

/-- `SchemaObject.example_data`.  `none` models a raised exception (a
non-indexable truthy `enum`, possibly in a nested schema). -/
def SchemaObject.example_data : SchemaObject → Option JValue
  | .mk t _ _ _ _ en ex props _ it _ =>
    match ex with
    | .null =>
      if en.truthy then pyFirstElem en
      else if t.isStr "object" || !props.isEmpty then
        match SchemaObject.exampleProps props with
        | some kvs => some (.obj kvs)
        | none => none
      else if t.isStr "array" then
        match it with
        | some i =>
          match SchemaObject.example_data i with
          | some v => some (.arr [v])
          | none => none
        | none => some (.arr [])
      else if t.isStr "string" then some (.str "...")
      else if t.isStr "integer" then some (.int 0)
      else if t.isStr "number" then some (.num 0)
      else if t.isStr "boolean" then some (.bool false)
      else some .null
    | _ => some ex
termination_by s => sizeOf s
decreasing_by
  all_goals simp_wf
  all_goals try simp
  all_goals omega

/-- The `properties` comprehension of `example_data`, in insertion order;
a failing child aborts the whole computation (the exception propagates). -/
def SchemaObject.exampleProps :
    List (String × SchemaObject) → Option (List (String × JValue))
  | [] => some []
  | (n, s) :: rest =>
    match SchemaObject.example_data s with
    | none => none
    | some v =>
      match SchemaObject.exampleProps rest with
      | none => none
      | some r => some ((n, v) :: r)
termination_by l => sizeOf l
decreasing_by
  all_goals simp_wf
  all_goals try simp
  all_goals omega

end

/-- `SchemaObject._format_type`.  The Python function returns the raw
`self.type` object when no transformation applies; since every caller
interpolates the result into an f-string, `str()` is applied up front
here, which is observationally the same. -/
def SchemaObject._format_type : SchemaObject → String
  | .mk t f _ _ nu _ _ _ _ it _ =>
    let ts0 := if t.truthy then pyStr t else "any"
    let ts1 := if f.truthy then ts0 ++ " (" ++ pyStr f ++ ")" else ts0
    let ts2 :=
      match it with
      | some i => if t.isStr "array" then "array[" ++ SchemaObject._format_type i ++ "]" else ts1
      | none => ts1
    if nu.truthy then ts2 ++ "?" else ts2
termination_by s => sizeOf s
decreasing_by
  all_goals simp_wf
  all_goals try simp
  all_goals omega

/-- Python `a in b` for strings: substring test. -/
def substrB (needle hay : String) : Bool :=
  needle.isEmpty || (hay.splitOn needle).length ≥ 2

/-- Python `name in container` on a JSON value; `none` models the
`TypeError` raised for non-containers. -/
def pyContains (container : JValue) (name : String) : Option Bool :=
  match container with
  | .arr xs => some (xs.any (fun v => v == JValue.str name))
  | .str s => some (substrB name s)
  | .obj kvs => some (kvs.any (fun p => p.1 == name))
  | _ => none

/-- One table row per property, in insertion order:
`| name | type | Yes/No | description-or-dash |`. -/
def SchemaObject.tableRows (reqv : JValue) :
    List (String × SchemaObject) → Option (List String)
  | [] => some []
  | (n, p) :: rest =>
    match pyContains reqv n with
    | none => none
    | some b =>
      match SchemaObject.tableRows reqv rest with
      | none => none
      | some rows =>
        some (("| " ++ n ++ " | " ++ p._format_type ++ " | " ++
               (if b then "Yes" else "No") ++ " | " ++
               (if p.description.truthy then pyStr p.description else "-") ++
               " |") :: rows)

/-- The effective required list of `to_markdown_table`:
`required_fields = required_fields or self.required or []` — the first
truthy operand, with a caller-supplied list represented as the Python
list-of-strings value it is. -/
def effectiveRequired (required_fields : Option (List String)) (req : JValue) :
    JValue :=
  match required_fields with
  | some l =>
    if l.isEmpty then (if req.truthy then req else .arr [])
    else .arr (l.map .str)
  | none => if req.truthy then req else .arr []

/-- `SchemaObject.to_markdown_table`: `_No fields_` for a property-less
schema, else header, separator and one row per property. -/
def SchemaObject.to_markdown_table (s : SchemaObject)
    (required_fields : Option (List String)) : Option String :=
  match s with
  | .mk _ _ _ _ _ _ _ props req _ _ =>
    if props.isEmpty then some "_No fields_"
    else
      match SchemaObject.tableRows (effectiveRequired required_fields req) props with
      | none => none
      | some rows =>
        some (String.intercalate "\n"
          ("| Field | Type | Required | Description |" ::
           "|-------|------|----------|-------------|" :: rows))

/-- Semantic equality of JSON mappings: equality up to reordering of the
entries of objects, applied recursively (the congruence closure of entry
permutation at object nodes).  Scalars and arrays compare by equality. -/
inductive SemEq : JValue → JValue → Prop where
  | refl (v : JValue) : SemEq v v
  | objPerm {a b : List (String × JValue)} : a.Perm b → SemEq (.obj a) (.obj b)
  | objCongr {k : String} {v w : JValue} {a b : List (String × JValue)} :
      SemEq v w → SemEq (.obj a) (.obj b) →
      SemEq (.obj ((k, v) :: a)) (.obj ((k, w) :: b))
  | trans {u v w : JValue} : SemEq u v → SemEq v w → SemEq u w

/-- The keys of an association list are pairwise distinct (every JSON
mapping satisfies this; a Python dict cannot repeat a key). -/
def nodupKeys : List (String × JValue) → Bool
  | [] => true
  | (k, _) :: rest => !(rest.any (fun p => p.1 == k)) && nodupKeys rest

mutual

/-- A canonical schema mapping: keys are duplicate-free, and every known
key that is present holds a value `to_dict` would emit again: truthy
`type`/`format`/`description`/`title`/`enum`/`required`, `nullable`
exactly `true`, non-null `example`, `properties` a non-empty mapping of
canonical mappings, `items` a canonical mapping.  Unknown keys may hold
anything. -/
def canonMap (m : List (String × JValue)) : Bool :=
  nodupKeys m && canonEntries m
termination_by (sizeOf m, 1)
decreasing_by
  · simp_wf
    rw [Prod.lex_iff]
    simp

def canonEntries : List (String × JValue) → Bool
  | [] => true
  | (k, v) :: rest => canonEntry (k, v) && canonEntries rest
termination_by l => (sizeOf l, 0)
decreasing_by
  all_goals simp_wf
  all_goals rw [Prod.lex_iff]
  all_goals try simp
  all_goals omega

def canonEntry : String × JValue → Bool
  | (k, v) =>
    if k == "type" || k == "format" || k == "description" || k == "title" then
      v.truthy
    else if k == "nullable" then
      match v with
      | .bool true => true
      | _ => false
    else if k == "enum" || k == "required" then v.truthy
    else if k == "example" then
      match v with
      | .null => false
      | _ => true
    else if k == "properties" then
      match v with
      | .obj kvs => !kvs.isEmpty && canonProps kvs
      | _ => false
    else if k == "items" then
      match v with
      | .obj ikvs => canonMap ikvs
      | _ => false
    else true
termination_by p => (sizeOf p.2, 2)
decreasing_by
  all_goals simp_wf
  all_goals rw [Prod.lex_iff]
  all_goals try simp
  all_goals omega

def canonProps : List (String × JValue) → Bool
  | [] => true
  | (_, .obj pm) :: rest => canonMap pm && canonProps rest
  | _ => false
termination_by l => (sizeOf l, 0)
decreasing_by
  all_goals simp_wf
  all_goals rw [Prod.lex_iff]
  all_goals try simp
  all_goals omega

end

/-- Lowercase four-digit hexadecimal rendering, for `\uXXXX` escapes. -/
def hex4 (n : Nat) : String :=
  String.mk [Nat.digitChar ((n / 4096) % 16), Nat.digitChar ((n / 256) % 16),
             Nat.digitChar ((n / 16) % 16), Nat.digitChar (n % 16)]

/-- The `\uXXXX` escape of a code point (a surrogate pair above
`0xFFFF`), as emitted by `json.dumps` with its default `ensure_ascii`. -/
def uEscape (cp : Nat) : String :=
  if cp < 65536 then "\\u" ++ hex4 cp
  else
    "\\u" ++ hex4 (55296 + (cp - 65536) / 1024) ++
    "\\u" ++ hex4 (56320 + (cp - 65536) % 1024)

/-- `json.dumps` escaping of one character: the two-character escapes for
quote, backslash and common control characters, `\uXXXX` for every other
character outside printable ASCII. -/
def jsonEscapeChar (c : Char) : String :=
  if c = Char.ofNat 34 then "\\\""
  else if c = Char.ofNat 92 then "\\\\"
  else if c = Char.ofNat 10 then "\\n"
  else if c = Char.ofNat 13 then "\\r"
  else if c = Char.ofNat 9 then "\\t"
  else if c = Char.ofNat 8 then "\\b"
  else if c = Char.ofNat 12 then "\\f"
  else if c.toNat < 32 || c.toNat > 126 then uEscape c.toNat
  else String.singleton c

/-- `json.dumps` escaping of a string (without the surrounding quotes). -/
def jsonEscape (s : String) : String :=
  String.join (s.toList.map jsonEscapeChar)

/-- `w * level` spaces of indentation. -/
def jsonPad (w level : Nat) : String :=
  String.mk (List.replicate (w * level) (Char.ofNat 32))

mutual

/-- `json.dumps(v, indent=w)` at nesting depth `level`: Python's indented
rendering, with `", "`-free separators (`",\n"` between items, `": "`
after keys), empty containers on one line. -/
def jsonDumps (w level : Nat) : JValue → String
  | .null => "null"
  | .bool true => "true"
  | .bool false => "false"
  | .int n => toString n
  | .num q => floatRepr q
  | .str s => "\"" ++ jsonEscape s ++ "\""
  | .arr [] => "[]"
  | .arr (x :: xs) =>
    "[\n" ++ String.intercalate ",\n" (jsonDumpsList w (level + 1) (x :: xs)) ++
    "\n" ++ jsonPad w level ++ "]"
  | .obj [] => "\x7b\x7d"
  | .obj (p :: ps) =>
    "\x7b\n" ++ String.intercalate ",\n" (jsonDumpsEntries w (level + 1) (p :: ps)) ++
    "\n" ++ jsonPad w level ++ "\x7d"
termination_by v => sizeOf v
decreasing_by
  all_goals simp_wf
  all_goals try simp
  all_goals omega

def jsonDumpsList (w level : Nat) : List JValue → List String
  | [] => []
  | x :: rest => (jsonPad w level ++ jsonDumps w level x) :: jsonDumpsList w level rest
termination_by l => sizeOf l
decreasing_by
  all_goals simp_wf
  all_goals try simp
  all_goals omega

def jsonDumpsEntries (w level : Nat) : List (String × JValue) → List String
  | [] => []
  | (k, v) :: rest =>
    (jsonPad w level ++ "\"" ++ jsonEscape k ++ "\": " ++ jsonDumps w level v) ::
    jsonDumpsEntries w level rest
termination_by l => sizeOf l
decreasing_by
  all_goals simp_wf
  all_goals try simp
  all_goals omega

end

/-- Python `dict(v)` on a JSON value: a mapping is copied; a list is
accepted when its elements are `[key, value]` pairs with string keys (or
two-character strings), later duplicates overwriting earlier entries;
every other value raises `TypeError`/`ValueError`. -/
def dictPairs : List JValue → Option (List (String × JValue))
  | [] => some []
  | .arr [.str k, v] :: rest => (dictPairs rest).map (fun r => (k, v) :: r)
  | .str s :: rest =>
    if s.length = 2 then
      (dictPairs rest).map (fun r => (s.take 1, .str (s.drop 1)) :: r)
    else none
  | _ => none

def pyDictOf : JValue → Option (List (String × JValue))
  | .obj kvs => some kvs
  | .arr xs => (dictPairs xs).map (fun prs => dictUpdate [] prs)
  | _ => none

/-- The `Endpoint` pydantic model (`revrseai/models/endpoint.py`); the
`UUID` id is kept in its string rendering, which is all the modelled
operations use.  The non-owning `_client` back-reference takes no part in
any modelled operation and is omitted. -/
structure Endpoint where
  id : String
  name : String
  description : Option String
  input_schema : SchemaObject
  output_schema : SchemaObject

/-- The value handed to the `input_schema`/`output_schema` field
validator: either a raw JSON value or an already-parsed `SchemaObject`. -/
inductive SchemaFieldValue where
  | json (v : JValue) : SchemaFieldValue
  | schemaObj (s : SchemaObject) : SchemaFieldValue

/-- `Endpoint.parse_schema`: a raw mapping is parsed with
`SchemaObject.from_dict`, an already-parsed `SchemaObject` is returned
unchanged, anything else raises `ValueError`.  A failure inside
`from_dict` (non-mapping `properties` value) also aborts construction. -/
def Endpoint.parse_schema : SchemaFieldValue → Except String SchemaObject
  | .json (.obj m) =>
    match SchemaObject.from_dict m with
    | some s => .ok s
    | none => .error "AttributeError"
  | .json _ => .error "Expected dict or SchemaObject"
  | .schemaObj s => .ok s

/-- Constructing an `Endpoint`: both schema fields go through
`parse_schema`; any validation error prevents the model from being
produced. -/
def Endpoint.make (id name : String) (description : Option String)
    (inputRaw outputRaw : SchemaFieldValue) : Except String Endpoint :=
  match Endpoint.parse_schema inputRaw with
  | .error e => .error e
  | .ok inS =>
    match Endpoint.parse_schema outputRaw with
    | .error e => .error e
    | .ok outS => .ok ⟨id, name, description, inS, outS⟩

/-- `Endpoint.example_data`: `dict(self.input_schema.example_data())`. -/
def Endpoint.exampleData (e : Endpoint) : Option (List (String × JValue)) :=
  (SchemaObject.example_data e.input_schema).bind pyDictOf

/-- `Endpoint.example_response`: `dict(self.output_schema.example_data())`. -/
def Endpoint.exampleResponse (e : Endpoint) : Option (List (String × JValue)) :=
  (SchemaObject.example_data e.output_schema).bind pyDictOf

/-- Python `s.split("\n")`: cut at every newline, keeping empty pieces
(`"".split` gives one empty piece). -/
def splitLinesAux : List Char → String → List String
  | [], acc => [acc]
  | c :: rest, acc =>
    if c = Char.ofNat 10 then acc :: splitLinesAux rest ""
    else splitLinesAux rest (acc.push c)

/-- The re-indentation of the dumped example JSON inside the code
snippet: every line but the first gains four spaces. -/
def indentDataStr (s : String) : String :=
  match splitLinesAux s.data "" with
  | [] => ""
  | l0 :: rest => String.intercalate "\n" (l0 :: rest.map (fun l => "    " ++ l))

/-- The generated Python snippet of `make_markdown_documentation`. -/
def Endpoint.codeSnippet (e : Endpoint) (indentedData : String) : String :=
  "from revrseai import RevrseAI\n\nclient = RevrseAI(\"YOUR_API_KEY\")\nresp = client.execute(\n    endpoint_id=\"" ++
  e.id ++ "\",\n    data=" ++ indentedData ++ "\n)\nprint(resp)"

/-- `Endpoint.make_markdown_documentation`, assembled exactly as the
source builds its `lines` list and joins with newlines.  `none` models an
exception raised by a schema operation on the way. -/
def Endpoint.make_markdown_documentation (e : Endpoint) : Option String :=
  match SchemaObject.to_markdown_table e.input_schema none with
  | none => none
  | some inTable =>
    match e.exampleData with
    | none => none
    | some inData =>
      match SchemaObject.to_markdown_table e.output_schema none with
      | none => none
      | some outTable =>
        match e.exampleResponse with
        | none => none
        | some outData =>
          let snippet := e.codeSnippet (indentDataStr (jsonDumps 4 0 (.obj inData)))
          some (String.intercalate "\n"
            (["# " ++ e.name, ""] ++
             (match e.description with
              | some d => if d.isEmpty then [] else ["> " ++ d, ""]
              | none => []) ++
             ["## Input", "", inTable] ++
             ["", "### Code Example", "", "```python", snippet, "```", ""] ++
             ["## Output", "", outTable] ++
             ["", "### Example Response", "", "```json",
              jsonDumps 2 0 (.obj outData), "```"]))

/-- The `Info` pydantic model (`revrseai/models/info.py`). -/
structure Info where
  app_name : String
  app_image_url : Option String
  app_description : Option String
  app_title : Option String
  endpoints : List Endpoint

/-- The per-endpoint documentation blocks of `Info`/`TaskDetailed`
documentation: each endpoint's block followed by one empty line, in list
order; a raising endpoint aborts the whole rendering. -/
def endpointBlocks : List Endpoint → Option (List String)
  | [] => some []
  | e :: rest =>
    match Endpoint.make_markdown_documentation e with
    | none => none
    | some doc =>
      match endpointBlocks rest with
      | none => none
      | some r => some (doc :: "" :: r)

/-- `Info.make_markdown_documentation`: heading from `app_title or
app_name`, then the `Endpoints` section. -/
def Info.make_markdown_documentation (info : Info) : Option String :=
  match endpointBlocks info.endpoints with
  | none => none
  | some blocks =>
    some (String.intercalate "\n"
      (["# " ++ (match info.app_title with
                 | some t => if t.isEmpty then info.app_name else t
                 | none => info.app_name), ""] ++
       ["## Endpoints", ""] ++ blocks))

/-- The `TaskDetailed` pydantic model (`revrseai/models/task.py`),
restricted to the fields its `make_markdown_documentation` reads; the
remaining fields (`id`, `current_action`, `task_stage`, `created_at`,
`messages`, the `_client` back-reference) never enter the modelled
operation. -/
structure TaskDetailed where
  title : String
  description : String
  endpoints : List Endpoint

/-- `TaskDetailed.make_markdown_documentation`: heading from the title,
block-quoted description when non-empty, then the `Endpoints` section. -/
def TaskDetailed.make_markdown_documentation (task : TaskDetailed) : Option String :=
  match endpointBlocks task.endpoints with
  | none => none
  | some blocks =>
    some (String.intercalate "\n"
      (["# " ++ task.title, ""] ++
       (if task.description.isEmpty then [] else ["> " ++ task.description, ""]) ++
       ["## Endpoints", ""] ++ blocks))

mutual

/-- A fuel-bounded copy of `example_data`: the outer `none` means the fuel
ran out, `some r` that the recursion completed with Python outcome `r`.
Fuel is consumed once per schema level. -/
def exampleDataFuel : Nat → SchemaObject → Option (Option JValue)
  | 0, _ => none
  | n + 1, .mk t _ _ _ _ en ex props _ it _ =>
    match ex with
    | .null =>
      if en.truthy then some (pyFirstElem en)
      else if t.isStr "object" || !props.isEmpty then
        match examplePropsFuel n props with
        | none => none
        | some none => some none
        | some (some kvs) => some (some (.obj kvs))
      else if t.isStr "array" then
        match it with
        | some i =>
          match exampleDataFuel n i with
          | none => none
          | some none => some none
          | some (some v) => some (some (.arr [v]))
        | none => some (some (.arr []))
      else if t.isStr "string" then some (some (.str "..."))
      else if t.isStr "integer" then some (some (.int 0))
      else if t.isStr "number" then some (some (.num 0))
      else if t.isStr "boolean" then some (some (.bool false))
      else some (some .null)
    | _ => some (some ex)
termination_by n _ => (n, 0)
decreasing_by
  all_goals simp_wf
  all_goals rw [Prod.lex_iff]
  all_goals try simp
  all_goals omega

def examplePropsFuel : Nat → List (String × SchemaObject) →
    Option (Option (List (String × JValue)))
  | _, [] => some (some [])
  | n, (nm, s) :: rest =>
    match exampleDataFuel n s with
    | none => none
    | some none => some none
    | some (some v) =>
      match examplePropsFuel n rest with
      | none => none
      | some none => some none
      | some (some r) => some (some ((nm, v) :: r))
termination_by n l => (n, sizeOf l)
decreasing_by
  all_goals simp_wf
  all_goals rw [Prod.lex_iff]
  all_goals try simp
  all_goals omega

end

/-! ## Helper lemmas -/

theorem exampleProps_eq_mapM (l : List (String × SchemaObject)) :
    SchemaObject.exampleProps l =
      l.mapM (fun p => (SchemaObject.example_data p.2).map (fun v => (p.1, v))) := by
  induction l with
  | nil =>
    rw [SchemaObject.exampleProps, List.mapM_nil]
    rfl
  | cons p rest ih =>
    obtain ⟨n, s⟩ := p
    rw [SchemaObject.exampleProps, List.mapM_cons, ih]
    cases SchemaObject.example_data s with
    | none => rfl
    | some v =>
      cases rest.mapM (fun p => (SchemaObject.example_data p.2).map (fun v => (p.1, v))) with
      | none => rfl
      | some r => rfl

/-! ## C2 -/

/-- C2: `example_data` returns `example` verbatim whenever it is set (even
when `enum` is also set), and otherwise the first element of a non-empty
`enum` list. -/
theorem example_data_priority :
    (∀ s : SchemaObject, s.example_val ≠ JValue.null →
        SchemaObject.example_data s = some s.example_val) ∧
    (∀ (s : SchemaObject) (x : JValue) (xs : List JValue),
        s.example_val = JValue.null → s.enum = JValue.arr (x :: xs) →
        SchemaObject.example_data s = some x) := by
  constructor
  · intro s hex
    obtain ⟨t, f, d, ti, nu, en, ex, props, req, it, extra⟩ := s
    simp only [SchemaObject.example_val] at hex ⊢
    rw [SchemaObject.example_data]
    cases ex <;> simp_all
  · intro s x xs hex hen
    obtain ⟨t, f, d, ti, nu, en, ex, props, req, it, extra⟩ := s
    simp only [SchemaObject.example_val] at hex
    simp only [SchemaObject.enum] at hen
    subst hex hen
    cases it <;> simp [SchemaObject.example_data, JValue.truthy, pyFirstElem]

/-- Witness for C2 at concrete schemas: `example` wins over `enum`, and
`enum = ["b","a"]` without `example` yields `"b"`. -/
theorem example_data_priority_witness :
    SchemaObject.example_data
      (.mk .null .null .null .null (.bool false)
        (.arr [.str "b", .str "a"]) (.str "ex") [] (.arr []) none []) =
      some (.str "ex") ∧
    SchemaObject.example_data
      (.mk .null .null .null .null (.bool false)
        (.arr [.str "b", .str "a"]) .null [] (.arr []) none []) =
      some (.str "b") :=
  ⟨example_data_priority.1 _ (by simp [SchemaObject.example_val]),
   example_data_priority.2 _ _ _ rfl rfl⟩

/-! ## C3 -/

/-- C3: with no `example` and no truthy `enum`, `example_data` recurses
into `properties` for objects (in insertion order), wraps the item example
for arrays (empty list when `items` is unset), returns the primitive
defaults `"..."`, `0`, `0.0`, `false`, and `null` for any other or unset
type. -/
theorem example_data_structural :
    (∀ s : SchemaObject, s.example_val = JValue.null → s.enum.truthy = false →
        (s.type_.isStr "object" || !s.properties.isEmpty) = true →
        SchemaObject.example_data s =
          (s.properties.mapM
            (fun p => (SchemaObject.example_data p.2).map (fun v => (p.1, v)))).map
            JValue.obj) ∧
    (∀ (s i : SchemaObject), s.example_val = JValue.null → s.enum.truthy = false →
        s.type_ = JValue.str "array" → s.properties = [] → s.items = some i →
        SchemaObject.example_data s =
          (SchemaObject.example_data i).map (fun v => JValue.arr [v])) ∧
    (∀ s : SchemaObject, s.example_val = JValue.null → s.enum.truthy = false →
        s.type_ = JValue.str "array" → s.properties = [] → s.items = none →
        SchemaObject.example_data s = some (JValue.arr [])) ∧
    (∀ s : SchemaObject, s.example_val = JValue.null → s.enum.truthy = false →
        s.type_ = JValue.str "string" → s.properties = [] →
        SchemaObject.example_data s = some (JValue.str "...")) ∧
    (∀ s : SchemaObject, s.example_val = JValue.null → s.enum.truthy = false →
        s.type_ = JValue.str "integer" → s.properties = [] →
        SchemaObject.example_data s = some (JValue.int 0)) ∧
    (∀ s : SchemaObject, s.example_val = JValue.null → s.enum.truthy = false →
        s.type_ = JValue.str "number" → s.properties = [] →
        SchemaObject.example_data s = some (JValue.num 0)) ∧
    (∀ s : SchemaObject, s.example_val = JValue.null → s.enum.truthy = false →
        s.type_ = JValue.str "boolean" → s.properties = [] →
        SchemaObject.example_data s = some (JValue.bool false)) ∧
    (∀ s : SchemaObject, s.example_val = JValue.null → s.enum.truthy = false →
        s.properties = [] →
        (∀ nm ∈ ["object", "array", "string", "integer", "number", "boolean"],
          s.type_.isStr nm = false) →
        SchemaObject.example_data s = some JValue.null) := by
  refine ⟨?_, ?_, ?_, ?_, ?_, ?_, ?_, ?_⟩
  · intro s hex hen hcond
    obtain ⟨t, f, d, ti, nu, en, ex, props, req, it, extra⟩ := s
    simp only [SchemaObject.example_val] at hex
    simp only [SchemaObject.enum] at hen
    simp only [SchemaObject.type_, SchemaObject.properties] at hcond ⊢
    subst hex
    rw [← exampleProps_eq_mapM]
    cases it <;>
      (simp only [SchemaObject.example_data]
       simp only [hen, hcond, Bool.false_eq_true, if_false, if_true]
       cases SchemaObject.exampleProps props <;> simp)
  · intro s i hex hen ht hprops hit
    obtain ⟨t, f, d, ti, nu, en, ex, props, req, it, extra⟩ := s
    simp only [SchemaObject.example_val] at hex
    simp only [SchemaObject.enum] at hen
    simp only [SchemaObject.type_] at ht
    simp only [SchemaObject.properties] at hprops
    simp only [SchemaObject.items] at hit
    subst hex ht hprops hit
    simp only [SchemaObject.example_data]
    simp [hen, JValue.isStr]
    cases SchemaObject.example_data i <;> simp
  · intro s hex hen ht hprops hit
    obtain ⟨t, f, d, ti, nu, en, ex, props, req, it, extra⟩ := s
    simp only [SchemaObject.example_val] at hex
    simp only [SchemaObject.enum] at hen
    simp only [SchemaObject.type_] at ht
    simp only [SchemaObject.properties] at hprops
    simp only [SchemaObject.items] at hit
    subst hex ht hprops hit
    simp only [SchemaObject.example_data]
    simp [hen, JValue.isStr]
  · intro s hex hen ht hprops
    obtain ⟨t, f, d, ti, nu, en, ex, props, req, it, extra⟩ := s
    simp only [SchemaObject.example_val] at hex
    simp only [SchemaObject.enum] at hen
    simp only [SchemaObject.type_] at ht
    simp only [SchemaObject.properties] at hprops
    subst hex ht hprops
    cases it <;>
      (simp only [SchemaObject.example_data]
       simp [hen, JValue.isStr])
  · intro s hex hen ht hprops
    obtain ⟨t, f, d, ti, nu, en, ex, props, req, it, extra⟩ := s
    simp only [SchemaObject.example_val] at hex
    simp only [SchemaObject.enum] at hen
    simp only [SchemaObject.type_] at ht
    simp only [SchemaObject.properties] at hprops
    subst hex ht hprops
    cases it <;>
      (simp only [SchemaObject.example_data]
       simp [hen, JValue.isStr])
  · intro s hex hen ht hprops
    obtain ⟨t, f, d, ti, nu, en, ex, props, req, it, extra⟩ := s
    simp only [SchemaObject.example_val] at hex
    simp only [SchemaObject.enum] at hen
    simp only [SchemaObject.type_] at ht
    simp only [SchemaObject.properties] at hprops
    subst hex ht hprops
    cases it <;>
      (simp only [SchemaObject.example_data]
       simp [hen, JValue.isStr])
  · intro s hex hen ht hprops
    obtain ⟨t, f, d, ti, nu, en, ex, props, req, it, extra⟩ := s
    simp only [SchemaObject.example_val] at hex
    simp only [SchemaObject.enum] at hen
    simp only [SchemaObject.type_] at ht
    simp only [SchemaObject.properties] at hprops
    subst hex ht hprops
    cases it <;>
      (simp only [SchemaObject.example_data]
       simp [hen, JValue.isStr])
  · intro s hex hen hprops ht
    obtain ⟨t, f, d, ti, nu, en, ex, props, req, it, extra⟩ := s
    simp only [SchemaObject.example_val] at hex
    simp only [SchemaObject.enum] at hen
    simp only [SchemaObject.type_] at ht
    simp only [SchemaObject.properties] at hprops
    subst hex hprops
    have h1 := ht "object" (by simp)
    have h2 := ht "array" (by simp)
    have h3 := ht "string" (by simp)
    have h4 := ht "integer" (by simp)
    have h5 := ht "number" (by simp)
    have h6 := ht "boolean" (by simp)
    cases it <;>
      (simp only [SchemaObject.example_data]
       simp [hen, h1, h2, h3, h4, h5, h6])

/-- Witness for C3: a two-field object schema, an array-of-string schema,
a bare array schema, the four primitives, and an unknown type, evaluated
concretely. -/
theorem example_data_structural_witness :
    SchemaObject.example_data
      (.mk (.str "object") .null .null .null (.bool false) .null .null
        [("x", .mk (.str "integer") .null .null .null (.bool false) .null .null [] (.arr []) none []),
         ("y", .mk (.str "string") .null .null .null (.bool false) .null .null [] (.arr []) none [])]
        (.arr []) none []) =
      some (.obj [("x", .int 0), ("y", .str "...")]) ∧
    SchemaObject.example_data
      (.mk (.str "array") .null .null .null (.bool false) .null .null []
        (.arr [])
        (some (.mk (.str "string") .null .null .null (.bool false) .null .null [] (.arr []) none [])) []) =
      some (.arr [.str "..."]) ∧
    SchemaObject.example_data
      (.mk (.str "array") .null .null .null (.bool false) .null .null []
        (.arr []) none []) = some (.arr []) ∧
    SchemaObject.example_data
      (.mk (.str "boolean") .null .null .null (.bool false) .null .null []
        (.arr []) none []) = some (.bool false) ∧
    SchemaObject.example_data
      (.mk (.str "mystery") .null .null .null (.bool false) .null .null []
        (.arr []) none []) = some .null := by
  refine ⟨?_, ?_, ?_, ?_, ?_⟩
  · have h := example_data_structural.1
      (SchemaObject.mk (.str "object") .null .null .null (.bool false) .null .null
        [("x", .mk (.str "integer") .null .null .null (.bool false) .null .null [] (.arr []) none []),
         ("y", .mk (.str "string") .null .null .null (.bool false) .null .null [] (.arr []) none [])]
        (.arr []) none []) rfl rfl (by simp [SchemaObject.type_, JValue.isStr])
    rw [h]
    rw [SchemaObject.properties, List.mapM_cons, List.mapM_cons, List.mapM_nil]
    simp [SchemaObject.example_data, JValue.isStr, JValue.truthy]
  · have h := example_data_structural.2.1
      (SchemaObject.mk (.str "array") .null .null .null (.bool false) .null .null []
        (.arr [])
        (some (.mk (.str "string") .null .null .null (.bool false) .null .null [] (.arr []) none [])) [])
      (.mk (.str "string") .null .null .null (.bool false) .null .null [] (.arr []) none [])
      rfl rfl rfl rfl rfl
    rw [h]
    simp [SchemaObject.example_data, JValue.isStr, JValue.truthy]
  · exact example_data_structural.2.2.1
      (SchemaObject.mk (.str "array") .null .null .null (.bool false) .null .null []
        (.arr []) none []) rfl rfl rfl rfl rfl
  · exact example_data_structural.2.2.2.2.2.2.1
      (SchemaObject.mk (.str "boolean") .null .null .null (.bool false) .null .null []
        (.arr []) none []) rfl rfl rfl rfl
  · exact example_data_structural.2.2.2.2.2.2.2
      (SchemaObject.mk (.str "mystery") .null .null .null (.bool false) .null .null []
        (.arr []) none []) rfl rfl rfl
      (by intro nm hnm; fin_cases hnm <;> simp [SchemaObject.type_, JValue.isStr])

/-! ## C4 -/

/-- C4: the displayed type string starts from `type` (or `"any"`), appends
a parenthesized `format`, is replaced wholesale by `array[<items>]` when
`type` is `"array"` and `items` is set, and gains a trailing `?` when
`nullable` — in this fixed order; in particular the two concrete
renderings of the claim. -/
theorem format_type_spec :
    (∀ (s i : SchemaObject), s.type_ = JValue.str "array" → s.items = some i →
        SchemaObject._format_type s =
          "array[" ++ SchemaObject._format_type i ++ "]" ++
          (if s.nullable.truthy then "?" else "")) ∧
    (∀ s : SchemaObject, s.type_.isStr "array" = false ∨ s.items = none →
        SchemaObject._format_type s =
          (if s.type_.truthy then pyStr s.type_ else "any") ++
          (if s.format.truthy then " (" ++ pyStr s.format ++ ")" else "") ++
          (if s.nullable.truthy then "?" else "")) ∧
    SchemaObject._format_type
      (.mk (.str "string") (.str "date-time") .null .null (.bool true) .null .null
        [] (.arr []) none []) = "string (date-time)?" ∧
    SchemaObject._format_type
      (.mk (.str "array") .null .null .null (.bool false) .null .null [] (.arr [])
        (some (.mk (.str "integer") .null .null .null (.bool false) .null .null []
          (.arr []) none [])) []) = "array[integer]" := by
  refine ⟨?_, ?_, ?_, ?_⟩
  · intro s i ht hit
    obtain ⟨t, f, d, ti, nu, en, ex, props, req, it, extra⟩ := s
    simp only [SchemaObject.type_] at ht
    simp only [SchemaObject.items] at hit
    simp only [SchemaObject.nullable]
    subst ht hit
    simp only [SchemaObject._format_type]
    simp only [JValue.isStr, beq_self_eq_true, if_true]
    split_ifs <;> simp
  · intro s hcond
    obtain ⟨t, f, d, ti, nu, en, ex, props, req, it, extra⟩ := s
    simp only [SchemaObject.type_, SchemaObject.items] at hcond
    simp only [SchemaObject.type_, SchemaObject.format, SchemaObject.nullable]
    cases it with
    | none =>
      simp only [SchemaObject._format_type]
      split_ifs <;> (try simp [String.append_assoc]) <;> (try rfl)
    | some i =>
      rcases hcond with hc | hc
      · simp only [SchemaObject._format_type]
        simp only [hc, Bool.false_eq_true, if_false]
        split_ifs <;> (try simp [String.append_assoc]) <;> (try rfl)
      · exact absurd hc (by simp)
  · simp [SchemaObject._format_type, JValue.truthy, JValue.isStr, pyStr]
    rfl
  · simp [SchemaObject._format_type, JValue.truthy, JValue.isStr, pyStr]
    rfl

/-- Witness for C4: the two universally quantified clauses applied at a
nullable array-of-boolean schema and at a plain formatted schema. -/
theorem format_type_spec_witness :
    SchemaObject._format_type
      (.mk (.str "array") .null .null .null (.bool true) .null .null [] (.arr [])
        (some (.mk (.str "boolean") .null .null .null (.bool false) .null .null []
          (.arr []) none [])) []) = "array[boolean]?" ∧
    SchemaObject._format_type
      (.mk (.str "integer") (.str "int64") .null .null (.bool false) .null .null
        [] (.arr []) none []) = "integer (int64)" := by
  constructor
  · have h := format_type_spec.1
      (.mk (.str "array") .null .null .null (.bool true) .null .null [] (.arr [])
        (some (.mk (.str "boolean") .null .null .null (.bool false) .null .null []
          (.arr []) none [])) [])
      (.mk (.str "boolean") .null .null .null (.bool false) .null .null []
        (.arr []) none []) rfl rfl
    rw [h]
    simp [SchemaObject._format_type, SchemaObject.nullable, JValue.truthy, JValue.isStr, pyStr]
    rfl
  · have h := format_type_spec.2.1
      (.mk (.str "integer") (.str "int64") .null .null (.bool false) .null .null
        [] (.arr []) none []) (Or.inr rfl)
    rw [h]
    simp [SchemaObject.type_, SchemaObject.format, SchemaObject.nullable,
      JValue.truthy, pyStr]
    rfl

/-! ## C5 -/

theorem jvalue_str_beq (a b : String) :
    (JValue.str a == JValue.str b) = (a == b) := by
  show JValue.beq (.str a) (.str b) = (a == b)
  simp [JValue.beq]

theorem strArr_any (l : List String) (n : String) :
    ((l.map JValue.str).any fun v => v == JValue.str n) = decide (n ∈ l) := by
  induction l with
  | nil => simp
  | cons a t ih =>
    simp only [List.map_cons, List.any_cons, ih, jvalue_str_beq, List.mem_cons]
    by_cases he : n = a
    · subst he
      simp
    · have h : (a == n) = false := beq_eq_false_iff_ne.mpr (fun hc => he hc.symm)
      simp [h, he]

theorem tableRows_eq_mapM (reqv : JValue) (l : List (String × SchemaObject)) :
    SchemaObject.tableRows reqv l =
      l.mapM (fun p => (pyContains reqv p.1).map (fun b =>
        "| " ++ p.1 ++ " | " ++ SchemaObject._format_type p.2 ++ " | " ++
        (if b then "Yes" else "No") ++ " | " ++
        (if p.2.description.truthy then pyStr p.2.description else "-") ++ " |")) := by
  induction l with
  | nil =>
    rw [SchemaObject.tableRows, List.mapM_nil]
    rfl
  | cons p rest ih =>
    obtain ⟨n, q⟩ := p
    rw [SchemaObject.tableRows, List.mapM_cons, ih]
    cases pyContains reqv n with
    | none => rfl
    | some b =>
      cases rest.mapM (fun p => (pyContains reqv p.1).map (fun b =>
        "| " ++ p.1 ++ " | " ++ SchemaObject._format_type p.2 ++ " | " ++
        (if b then "Yes" else "No") ++ " | " ++
        (if p.2.description.truthy then pyStr p.2.description else "-") ++ " |")) with
      | none => rfl
      | some r => rfl

/-- C5 counterexample: with the caller-supplied override `[]` and own
`required = ["x"]`, the row for `x` still reads `Yes`, although `x` is not
in the supplied override — the empty override is falsy and is replaced by
the schema's own `required`, contradicting the claim's "required override
when one is given". -/
theorem to_markdown_table_override_empty_counterexample :
    SchemaObject.to_markdown_table
      (.mk .null .null .null .null (.bool false) .null .null
        [("x", SchemaObject.defaultObj)] (.arr [.str "x"]) none [])
      (some []) =
      some ("| Field | Type | Required | Description |\n|-------|------|----------|-------------|\n| x | any | Yes | - |") ∧
    "x" ∉ ([] : List String) := by
  constructor
  · rw [SchemaObject.to_markdown_table]
    rw [tableRows_eq_mapM, List.mapM_cons, List.mapM_nil]
    simp [effectiveRequired, JValue.truthy, pyContains, jvalue_str_beq,
      SchemaObject.defaultObj, SchemaObject._format_type, SchemaObject.description]
    rfl
  · simp

/-- C5 (amended): empty `properties` renders exactly `_No fields_`;
otherwise the table is header, separator and one row per property in
insertion order with name, formatted type, `Yes`/`No` by membership in the
effective required value, and description or `-`.  The effective required
value is the caller-supplied override only when that override is non-empty;
an empty or omitted override falls back to the schema's own `required`
(then `[]`).  Membership in a list of strings is plain list membership. -/
theorem to_markdown_table_spec :
    (∀ (s : SchemaObject) (o : Option (List String)), s.properties = [] →
        SchemaObject.to_markdown_table s o = some "_No fields_") ∧
    (∀ (s : SchemaObject) (o : Option (List String)), s.properties ≠ [] →
        SchemaObject.to_markdown_table s o =
          (s.properties.mapM (fun p =>
             (pyContains (effectiveRequired o s.required) p.1).map (fun b =>
               "| " ++ p.1 ++ " | " ++ SchemaObject._format_type p.2 ++ " | " ++
               (if b then "Yes" else "No") ++ " | " ++
               (if p.2.description.truthy then pyStr p.2.description else "-") ++ " |"))).map
            (fun rows => String.intercalate "\n"
              ("| Field | Type | Required | Description |" ::
               "|-------|------|----------|-------------|" :: rows))) ∧
    (∀ (l : List String) (req : JValue), l ≠ [] →
        effectiveRequired (some l) req = JValue.arr (l.map JValue.str)) ∧
    (∀ req : JValue, effectiveRequired (some []) req = effectiveRequired none req) ∧
    (∀ (l : List String) (n : String),
        pyContains (JValue.arr (l.map JValue.str)) n = some (decide (n ∈ l))) := by
  refine ⟨?_, ?_, ?_, ?_, ?_⟩
  · intro s o hprops
    obtain ⟨t, f, d, ti, nu, en, ex, props, req, it, extra⟩ := s
    simp only [SchemaObject.properties] at hprops
    subst hprops
    rw [SchemaObject.to_markdown_table]
    simp
  · intro s o hprops
    obtain ⟨t, f, d, ti, nu, en, ex, props, req, it, extra⟩ := s
    simp only [SchemaObject.properties] at hprops
    simp only [SchemaObject.properties, SchemaObject.required]
    rw [SchemaObject.to_markdown_table]
    rw [tableRows_eq_mapM]
    have hne : props.isEmpty = false := by
      cases props with
      | nil => exact absurd rfl hprops
      | cons a t => rfl
    simp only [hne, Bool.false_eq_true, if_false]
    cases props.mapM (fun p =>
      (pyContains (effectiveRequired o req) p.1).map (fun b =>
        "| " ++ p.1 ++ " | " ++ SchemaObject._format_type p.2 ++ " | " ++
        (if b then "Yes" else "No") ++ " | " ++
        (if p.2.description.truthy then pyStr p.2.description else "-") ++ " |")) with
    | none => rfl
    | some rows => rfl
  · intro l req hl
    cases l with
    | nil => exact absurd rfl hl
    | cons a t => rfl
  · intro req
    rfl
  · intro l n
    simp only [pyContains, strArr_any]

/-- Witness for C5 (amended): the empty-properties sentinel, a rendered
two-row table with a non-empty override, and the required-resolution
clauses at concrete values. -/
theorem to_markdown_table_spec_witness :
    SchemaObject.to_markdown_table SchemaObject.defaultObj none = some "_No fields_" ∧
    SchemaObject.to_markdown_table
      (.mk .null .null .null .null (.bool false) .null .null
        [("x", SchemaObject.defaultObj)] (.arr []) none []) (some ["x"]) =
      some ("| Field | Type | Required | Description |\n|-------|------|----------|-------------|\n| x | any | Yes | - |") ∧
    effectiveRequired (some ["a"]) (.arr [.str "b"]) = JValue.arr [.str "a"] ∧
    effectiveRequired (some []) (.arr [.str "b"]) = effectiveRequired none (.arr [.str "b"]) ∧
    pyContains (JValue.arr [.str "a"]) "a" = some true := by
  refine ⟨?_, ?_, ?_, ?_, ?_⟩
  · exact to_markdown_table_spec.1 SchemaObject.defaultObj none rfl
  · rw [to_markdown_table_spec.2.1
      (.mk .null .null .null .null (.bool false) .null .null
        [("x", SchemaObject.defaultObj)] (.arr []) none []) (some ["x"]) (by simp [SchemaObject.properties])]
    rw [SchemaObject.properties, List.mapM_cons, List.mapM_nil]
    simp [effectiveRequired, pyContains, jvalue_str_beq,
      SchemaObject.defaultObj, SchemaObject._format_type, SchemaObject.description,
      SchemaObject.required, JValue.truthy]
    rfl
  · exact to_markdown_table_spec.2.2.1 ["a"] (.arr [.str "b"]) (by simp)
  · exact to_markdown_table_spec.2.2.2.1 (.arr [.str "b"])
  · have h := to_markdown_table_spec.2.2.2.2 ["a"] "a"
    simp at h
    simpa using h

/-! ## C6 -/

theorem fromProps_eq {kvs : List (String × JValue)}
    {props : List (String × SchemaObject)}
    (h : SchemaObject.fromProps kvs = some props) :
    props = kvs.map (fun p => (p.1,
      match p.2 with
      | .obj pm => (SchemaObject.from_dict pm).getD SchemaObject.defaultObj
      | _ => SchemaObject.defaultObj)) := by
  induction kvs generalizing props with
  | nil =>
    rw [SchemaObject.fromProps] at h
    simp at h
    simp [h.symm]
  | cons p rest ih =>
    obtain ⟨n, v⟩ := p
    cases v with
    | obj pm =>
      rw [SchemaObject.fromProps] at h
      cases hd : SchemaObject.from_dict pm with
      | none => simp [hd] at h
      | some s =>
        rw [hd] at h
        cases hr : SchemaObject.fromProps rest with
        | none => simp [hr] at h
        | some r =>
          rw [hr] at h
          simp at h
          simp [h.symm, hd, ih hr]
    | null =>
      rw [SchemaObject.fromProps] at h <;>
        try (intro pm hpm; exact absurd hpm (by simp))
      cases hr : SchemaObject.fromProps rest with
      | none => simp [hr] at h
      | some r =>
        rw [hr] at h
        simp at h
        simp [h.symm, ih hr]
    | bool b =>
      rw [SchemaObject.fromProps] at h <;>
        try (intro pm hpm; exact absurd hpm (by simp))
      cases hr : SchemaObject.fromProps rest with
      | none => simp [hr] at h
      | some r =>
        rw [hr] at h
        simp at h
        simp [h.symm, ih hr]
    | int n' =>
      rw [SchemaObject.fromProps] at h <;>
        try (intro pm hpm; exact absurd hpm (by simp))
      cases hr : SchemaObject.fromProps rest with
      | none => simp [hr] at h
      | some r =>
        rw [hr] at h
        simp at h
        simp [h.symm, ih hr]
    | num q =>
      rw [SchemaObject.fromProps] at h <;>
        try (intro pm hpm; exact absurd hpm (by simp))
      cases hr : SchemaObject.fromProps rest with
      | none => simp [hr] at h
      | some r =>
        rw [hr] at h
        simp at h
        simp [h.symm, ih hr]
    | str s' =>
      rw [SchemaObject.fromProps] at h <;>
        try (intro pm hpm; exact absurd hpm (by simp))
      cases hr : SchemaObject.fromProps rest with
      | none => simp [hr] at h
      | some r =>
        rw [hr] at h
        simp at h
        simp [h.symm, ih hr]
    | arr xs =>
      rw [SchemaObject.fromProps] at h <;>
        try (intro pm hpm; exact absurd hpm (by simp))
      cases hr : SchemaObject.fromProps rest with
      | none => simp [hr] at h
      | some r =>
        rw [hr] at h
        simp at h
        simp [h.symm, ih hr]

/-- Every successful parse is a `build` over the parsed `properties` and
`items`; in particular the extracted `properties` association satisfies
`fromProps`. -/
theorem from_dict_shape {m : List (String × JValue)} {s : SchemaObject}
    (h : SchemaObject.from_dict m = some s) :
    ∃ props itemsObj, s = SchemaObject.build m props itemsObj ∧
      ((∃ kvs, m.lookup "properties" = some (.obj kvs) ∧
          SchemaObject.fromProps kvs = some props) ∨
        (m.lookup "properties" = none ∧ props = [])) ∧
      ((∃ ikvs, m.lookup "items" = some (.obj ikvs) ∧
          (∃ i, SchemaObject.from_dict ikvs = some i ∧ itemsObj = some i)) ∨
        ((∀ ikvs, m.lookup "items" ≠ some (.obj ikvs)) ∧ itemsObj = none)) := by
  have hparts : ∀ (pk : List (String × JValue)),
      SchemaObject.fromParts m pk = some s →
      ∃ props itemsObj, s = SchemaObject.build m props itemsObj ∧
        SchemaObject.fromProps pk = some props ∧
        ((∃ ikvs, m.lookup "items" = some (.obj ikvs) ∧
            (∃ i, SchemaObject.from_dict ikvs = some i ∧ itemsObj = some i)) ∨
          ((∀ ikvs, m.lookup "items" ≠ some (.obj ikvs)) ∧ itemsObj = none)) := by
    intro pk hps
    rw [SchemaObject.fromParts] at hps
    split at hps
    · exact absurd hps (by simp)
    · rename_i props hfp
      split at hps
      · rename_i ikvs hi
        split at hps
        · exact absurd hps (by simp)
        · rename_i i hii
          refine ⟨props, some i, ?_, hfp, Or.inl ⟨ikvs, hi, i, hii, rfl⟩⟩
          simpa using hps.symm
      · rename_i v hguard hieq
        refine ⟨props, none, ?_, hfp, Or.inr ⟨?_, rfl⟩⟩
        · simpa using hps.symm
        · intro ikvs hik
          rw [hieq] at hik
          simp at hik
          exact hguard _ hik
      · rename_i hi
        refine ⟨props, none, ?_, hfp, Or.inr ⟨?_, rfl⟩⟩
        · simpa using hps.symm
        · intro ikvs hik
          rw [hi] at hik
          cases hik
  rw [SchemaObject.from_dict] at h
  split at h
  · rename_i pkvs hp
    obtain ⟨props, itemsObj, hs, hfp, hitems⟩ := hparts _ h
    exact ⟨props, itemsObj, hs, Or.inl ⟨pkvs, hp, hfp⟩, hitems⟩
  · exact absurd h (by simp)
  · rename_i hp
    obtain ⟨props, itemsObj, hs, hfp, hitems⟩ := hparts _ h
    have hprops : props = [] := by
      rw [SchemaObject.fromProps] at hfp
      simpa using hfp.symm
    exact ⟨props, itemsObj, hs, Or.inr ⟨hp, hprops⟩, hitems⟩

/-- C6: tolerant parsing — a non-mapping value inside `properties` parses
to a default `SchemaObject()` while its siblings parse normally, and a
non-mapping `items` value leaves `items` unset instead of failing. -/
theorem from_dict_tolerant :
    (∀ (m kvs : List (String × JValue)) (s : SchemaObject),
        m.lookup "properties" = some (.obj kvs) →
        SchemaObject.from_dict m = some s →
        s.properties = kvs.map (fun p => (p.1,
          match p.2 with
          | .obj pm => (SchemaObject.from_dict pm).getD SchemaObject.defaultObj
          | _ => SchemaObject.defaultObj))) ∧
    (∀ (m : List (String × JValue)) (v : JValue) (s : SchemaObject),
        m.lookup "items" = some v → (∀ ikvs, v ≠ JValue.obj ikvs) →
        SchemaObject.from_dict m = some s → s.items = none) ∧
    (∀ (m : List (String × JValue)) (v : JValue),
        m.lookup "properties" = none → m.lookup "items" = some v →
        (∀ ikvs, v ≠ JValue.obj ikvs) →
        ∃ s, SchemaObject.from_dict m = some s ∧ s.items = none) ∧
    (SchemaObject.from_dict [("properties", .obj [("bad", .int 5)])] =
        some (.mk .null .null .null .null (.bool false) .null .null
          [("bad", SchemaObject.defaultObj)] (.arr []) none [])) := by
  refine ⟨?_, ?_, ?_, ?_⟩
  · intro m kvs s hp h
    obtain ⟨props, itemsObj, hs, hfp, _⟩ := from_dict_shape h
    rcases hfp with ⟨kvs0, hp0, hfp0⟩ | ⟨hp0, _⟩
    · rw [hp] at hp0
      simp at hp0
      subst hp0
      rw [hs]
      simp only [SchemaObject.build, SchemaObject.properties]
      exact fromProps_eq hfp0
    · rw [hp] at hp0
      cases hp0
  · intro m v s hi hguard h
    obtain ⟨props, itemsObj, hs, _, hitems⟩ := from_dict_shape h
    rcases hitems with ⟨ikvs, hi0, _, _, hio⟩ | ⟨_, hio⟩
    · rw [hi] at hi0
      simp at hi0
      exact absurd hi0 (hguard _)
    · rw [hs, hio]
      simp [SchemaObject.build, SchemaObject.items]
  · intro m v hp hi hguard
    refine ⟨SchemaObject.build m [] none, ?_,
      by simp [SchemaObject.build, SchemaObject.items]⟩
    rw [SchemaObject.from_dict]
    split
    · rename_i pkvs hp2
      rw [hp] at hp2
      cases hp2
    · rename_i v2 hg hp2
      rw [hp] at hp2
      cases hp2
    · rw [SchemaObject.fromParts]
      rw [SchemaObject.fromProps]
      split
      · rename_i heq
        cases heq
      · rename_i props heq
        simp at heq
        subst heq
        split
        · rename_i ikvs hi2
          rw [hi] at hi2
          simp at hi2
          exact absurd hi2 (hguard _)
        all_goals rfl
  · simp [SchemaObject.from_dict, SchemaObject.fromParts, SchemaObject.fromProps,
      SchemaObject.build, SchemaObject.defaultObj, List.lookup, knownFields]

/-- Witness for C6: the `{"properties": {"bad": 5}}` document parses with
`bad` defaulted, and `{"items": 3}` parses with `items` unset. -/
theorem from_dict_tolerant_witness :
    (SchemaObject.mk .null .null .null .null (.bool false) .null .null
      [("bad", SchemaObject.defaultObj)] (.arr []) none []).properties =
      [("bad", SchemaObject.defaultObj)] ∧
    SchemaObject.defaultObj.items = none ∧
    (∃ s, SchemaObject.from_dict [("items", .int 3)] = some s ∧ s.items = none) := by
  refine ⟨?_, ?_, ?_⟩
  · have h := from_dict_tolerant.1 [("properties", .obj [("bad", .int 5)])]
      [("bad", .int 5)]
      (.mk .null .null .null .null (.bool false) .null .null
        [("bad", SchemaObject.defaultObj)] (.arr []) none [])
      rfl from_dict_tolerant.2.2.2
    rw [h]
    rfl
  · have h2 : SchemaObject.from_dict [("items", .int 3)] = some SchemaObject.defaultObj := by
      simp [SchemaObject.from_dict, SchemaObject.fromParts, SchemaObject.fromProps,
        SchemaObject.build, SchemaObject.defaultObj, List.lookup, knownFields]
    exact from_dict_tolerant.2.1 [("items", .int 3)] (.int 3) SchemaObject.defaultObj
      rfl (by intro ikvs; simp) h2
  · exact from_dict_tolerant.2.2.1 [("items", .int 3)] (.int 3) rfl rfl
      (by intro ikvs; simp)

/-! ## C7 -/

/-- C7: the schema-field validator accepts a raw mapping (parsed with
`from_dict`) or an already-parsed `SchemaObject` (returned unchanged), and
raises `ValueError` on anything else; the error aborts `Endpoint`
construction. -/
theorem parse_schema_spec :
    (∀ s : SchemaObject, Endpoint.parse_schema (.schemaObj s) = .ok s) ∧
    (∀ (m : List (String × JValue)) (s : SchemaObject),
        SchemaObject.from_dict m = some s →
        Endpoint.parse_schema (.json (.obj m)) = .ok s) ∧
    (∀ v : JValue, (∀ m, v ≠ JValue.obj m) →
        Endpoint.parse_schema (.json v) = .error "Expected dict or SchemaObject") ∧
    (∀ (id name : String) (d : Option String) (v : JValue) (outRaw : SchemaFieldValue),
        (∀ m, v ≠ JValue.obj m) →
        Endpoint.make id name d (.json v) outRaw =
          .error "Expected dict or SchemaObject") := by
  refine ⟨?_, ?_, ?_, ?_⟩
  · intro s
    rfl
  · intro m s h
    simp [Endpoint.parse_schema, h]
  · intro v hv
    cases v <;> first
      | rfl
      | exact absurd rfl (hv _)
  · intro id name d v outRaw hv
    cases v <;> first
      | rfl
      | exact absurd rfl (hv _)

/-- Witness for C7 at concrete values: a parsed object passes through, a
raw empty mapping parses, an integer is rejected, and the rejection
prevents endpoint construction. -/
theorem parse_schema_spec_witness :
    Endpoint.parse_schema (.schemaObj SchemaObject.defaultObj) =
      .ok SchemaObject.defaultObj ∧
    Endpoint.parse_schema (.json (.obj [])) = .ok SchemaObject.defaultObj ∧
    Endpoint.parse_schema (.json (.int 7)) =
      .error "Expected dict or SchemaObject" ∧
    Endpoint.make "id0" "ep" none (.json (.int 7))
      (.schemaObj SchemaObject.defaultObj) =
      .error "Expected dict or SchemaObject" := by
  refine ⟨parse_schema_spec.1 SchemaObject.defaultObj, ?_, ?_, ?_⟩
  · refine parse_schema_spec.2.1 [] SchemaObject.defaultObj ?_
    simp [SchemaObject.from_dict, SchemaObject.fromParts, SchemaObject.fromProps,
      SchemaObject.build, SchemaObject.defaultObj, List.lookup, knownFields]
  · exact parse_schema_spec.2.2.1 (.int 7) (by intro m; simp)
  · exact parse_schema_spec.2.2.2 "id0" "ep" none (.int 7)
      (.schemaObj SchemaObject.defaultObj) (by intro m; simp)

/-! ## C10 -/

theorem any_key_eq_false {d : List (String × JValue)} {k : String}
    (h : ∀ q ∈ d, q.1 ≠ k) : (d.any fun p => p.1 == k) = false := by
  induction d with
  | nil => rfl
  | cons q t ih =>
    simp only [List.any_cons, Bool.or_eq_false_iff]
    constructor
    · exact beq_eq_false_iff_ne.mpr (h q (List.mem_cons_self q t))
    · exact ih (fun q' hq' => h q' (List.mem_cons_of_mem q hq'))

theorem dictInsert_append {d : List (String × JValue)} {k : String} {v : JValue}
    (h : (d.any fun p => p.1 == k) = false) : dictInsert d k v = d ++ [(k, v)] := by
  simp [dictInsert, h]

theorem dictUpdate_disjoint :
    ∀ (u d : List (String × JValue)),
      (∀ p ∈ u, ∀ q ∈ d, q.1 ≠ p.1) → nodupKeys u = true →
      dictUpdate d u = d ++ u := by
  intro u
  induction u with
  | nil =>
    intro d _ _
    simp [dictUpdate]
  | cons p u' ih =>
    intro d hdisj hnod
    obtain ⟨k, v⟩ := p
    rw [nodupKeys] at hnod
    simp only [Bool.and_eq_true, Bool.not_eq_true'] at hnod
    obtain ⟨hany, hnod'⟩ := hnod
    have hstep : dictUpdate d ((k, v) :: u') = dictUpdate (d ++ [(k, v)]) u' := by
      rw [dictUpdate, List.foldl_cons]
      rw [dictInsert_append (any_key_eq_false (fun q hq =>
        hdisj (k, v) (List.mem_cons_self _ _) q hq))]
      rfl
    rw [hstep, ih (d ++ [(k, v)]) ?_ hnod']
    · simp
    · intro p' hp' q hq
      rcases List.mem_append.mp hq with hqd | hqk
      · exact hdisj p' (List.mem_cons_of_mem _ hp') q hqd
      · have hq1 : q = (k, v) := by simpa using hqk
        subst hq1
        have hb : (p'.1 == k) = false := by
          cases hcc : (p'.1 == k) with
          | false => rfl
          | true =>
            exfalso
            have : (u'.any fun p => p.1 == k) = true :=
              List.any_eq_true.mpr ⟨p', hp', hcc⟩
            simp [this] at hany
        have hne : p'.1 ≠ k := beq_eq_false_iff_ne.mp hb
        exact fun he => hne he.symm

theorem any_filter_false {t : List (String × JValue)} {f : String × JValue → Bool}
    {g : String × JValue → Bool} (h : t.any f = false) :
    ((t.filter g).any f) = false := by
  induction t with
  | nil => rfl
  | cons q t' ih =>
    simp only [List.any_cons, Bool.or_eq_false_iff] at h
    rw [List.filter_cons]
    by_cases hg : g q
    · simp [hg, List.any_cons, h.1, ih h.2]
    · simp [hg, ih h.2]

theorem nodupKeys_filter {m : List (String × JValue)}
    {pred : String × JValue → Bool} (h : nodupKeys m = true) :
    nodupKeys (m.filter pred) = true := by
  induction m with
  | nil => rfl
  | cons q t ih =>
    obtain ⟨k, v⟩ := q
    rw [nodupKeys] at h
    simp only [Bool.and_eq_true, Bool.not_eq_true'] at h
    obtain ⟨hany, hnod⟩ := h
    rw [List.filter_cons]
    by_cases hg : pred (k, v)
    · simp only [hg, if_true]
      rw [nodupKeys]
      simp only [Bool.and_eq_true, Bool.not_eq_true']
      exact ⟨any_filter_false hany, ih hnod⟩
    · simp only [hg, Bool.false_eq_true, if_false]
      exact ih hnod

theorem typedFields_keys (s : SchemaObject) :
    ∀ p ∈ SchemaObject.typedFields s, p.1 ∈ knownFields := by
  obtain ⟨t, f, d, ti, nu, en, ex, props, req, it, extra⟩ := s
  intro p hp
  cases ex <;> cases it <;>
    (rw [SchemaObject.typedFields] at hp <;>
       try (intro hx; simp at hx)
     simp only [List.mem_append] at hp
     rcases hp with ((((((((h | h) | h) | h) | h) | h) | h) | h) | h) | h <;>
       (first
         | (split at h <;> simp_all [knownFields])
         | simp_all [knownFields]))

/-- C10: `_extra` is exactly the input's unknown-key entries, so its keys
are disjoint from the known keys; consequently the closing
`result.update(self._extra)` of `to_dict` appends the extra entries and
can never overwrite a typed field already emitted. -/
theorem extra_bag_spec :
    ∀ (m : List (String × JValue)) (s : SchemaObject),
      SchemaObject.from_dict m = some s →
      s._extra = m.filter (fun p => !(knownFields.contains p.1)) ∧
      (∀ p ∈ s._extra, p.1 ∉ knownFields) ∧
      (∀ p ∈ SchemaObject.typedFields s, p.1 ∈ knownFields) ∧
      (nodupKeys m = true →
        SchemaObject.to_dict s = SchemaObject.typedFields s ++ s._extra) := by
  intro m s h
  obtain ⟨props, itemsObj, hs, -, -⟩ := from_dict_shape h
  have hex : s._extra = m.filter (fun p => !(knownFields.contains p.1)) := by
    rw [hs]
    rfl
  have hnotin : ∀ p ∈ s._extra, p.1 ∉ knownFields := by
    intro p hp
    rw [hex] at hp
    have := (List.mem_filter.mp hp).2
    simpa using this
  refine ⟨hex, hnotin, typedFields_keys s, ?_⟩
  intro hnod
  rw [SchemaObject.to_dict]
  apply dictUpdate_disjoint
  · intro p hp q hq
    have h1 : q.1 ∈ knownFields := typedFields_keys s q hq
    have h2 : p.1 ∉ knownFields := hnotin p hp
    exact fun he => h2 (he ▸ h1)
  · rw [hex]
    exact nodupKeys_filter hnod

/-- Witness for C10 at a concrete document with one unknown key. -/
theorem extra_bag_spec_witness :
    ∃ s, SchemaObject.from_dict [("type", .str "string"), ("x-vendor", .int 1)] = some s ∧
      s._extra = [("x-vendor", .int 1)] ∧
      SchemaObject.to_dict s = SchemaObject.typedFields s ++ s._extra := by
  have hfd : SchemaObject.from_dict [("type", .str "string"), ("x-vendor", .int 1)] =
      some (SchemaObject.build [("type", .str "string"), ("x-vendor", .int 1)] [] none) := by
    rw [SchemaObject.from_dict]
    split
    · rename_i pkvs hp2
      simp [List.lookup] at hp2
    · rename_i v2 hg hp2
      simp [List.lookup] at hp2
    · rw [SchemaObject.fromParts, SchemaObject.fromProps]
      split
      · rename_i heq
        cases heq
      · rename_i props heq
        simp at heq
        subst heq
        split
        · rename_i ikvs hi2
          simp [List.lookup] at hi2
        all_goals rfl
  have h := extra_bag_spec [("type", .str "string"), ("x-vendor", .int 1)]
    (SchemaObject.build [("type", .str "string"), ("x-vendor", .int 1)] [] none) hfd
  refine ⟨_, hfd, ?_, h.2.2.2 (by rfl)⟩
  rw [h.1]
  rfl

/-! ## C9 -/

set_option maxHeartbeats 1000000 in
/-- Fuel equal to the size of the schema (or property list) suffices for
the fuel-bounded copy of `example_data` to complete with the same
outcome. -/
theorem fuel_complete (n : Nat) :
    (∀ s : SchemaObject, sizeOf s ≤ n →
      exampleDataFuel n s = some (SchemaObject.example_data s)) ∧
    (∀ l : List (String × SchemaObject), sizeOf l ≤ n →
      examplePropsFuel n l = some (SchemaObject.exampleProps l)) := by
  induction n using Nat.strong_induction_on with
  | _ n IH =>
    have hdata : ∀ s : SchemaObject, sizeOf s ≤ n →
        exampleDataFuel n s = some (SchemaObject.example_data s) := by
      intro s h
      obtain ⟨t, f, d, ti, nu, en, ex, props, req, it, extra⟩ := s
      simp only [SchemaObject.mk.sizeOf_spec] at h
      cases n with
      | zero => omega
      | succ m =>
        have hp' : sizeOf props ≤ m := by omega
        cases ex <;> cases it <;>
          (rw [exampleDataFuel, SchemaObject.example_data] <;>
             try (intro hx; simp at hx)) <;>
          try rfl
        all_goals rw [(IH m (by omega)).2 props hp']
        · cases SchemaObject.exampleProps props <;>
            (first | (split_ifs <;> rfl) | rfl)
        · rename_i i
          have hi' : sizeOf i ≤ m := by
            simp only [Option.some.sizeOf_spec] at h
            omega
          rw [(IH m (by omega)).1 i hi']
          cases SchemaObject.exampleProps props <;>
            cases SchemaObject.example_data i <;>
            (first | (split_ifs <;> rfl) | rfl)
    refine ⟨hdata, ?_⟩
    intro l
    induction l with
    | nil =>
      intro _
      rw [examplePropsFuel, SchemaObject.exampleProps]
    | cons p rest ihl =>
      intro h
      obtain ⟨nm, s⟩ := p
      simp only [List.cons.sizeOf_spec, Prod.mk.sizeOf_spec] at h
      rw [examplePropsFuel, SchemaObject.exampleProps]
      rw [hdata s (by omega)]
      rw [ihl (by omega)]
      cases SchemaObject.example_data s <;>
        cases SchemaObject.exampleProps rest <;>
        (first | (split_ifs <;> rfl) | rfl)

/-- C9: `example_data` terminates on every (finite, cycle-free)
`SchemaObject`: the recursion through `properties` and `items` never
recurses deeper than the size of the schema tree, so the fuel-bounded
evaluator already completes — with `example_data`'s value — when given
`sizeOf s` fuel. -/
theorem example_data_terminates :
    ∀ s : SchemaObject,
      exampleDataFuel (sizeOf s) s = some (SchemaObject.example_data s) :=
  fun s => (fuel_complete (sizeOf s)).1 s (Nat.le_refl _)

/-! ## C8 -/

/-- `joinPrefixed s [b1, ..., bk] = s ++ b1 ++ s ++ b2 ++ ... ++ s ++ bk`:
the tail of a newline join. -/
def joinPrefixed (s : String) : List String → String
  | [] => ""
  | b :: t => s ++ b ++ joinPrefixed s t

theorem intercalate_go_eq (s : String) (t : List String) :
    ∀ acc, String.intercalate.go acc s t = acc ++ joinPrefixed s t := by
  induction t with
  | nil =>
    intro acc
    rw [String.intercalate.go, joinPrefixed]
    simp
  | cons b t' ih =>
    intro acc
    rw [String.intercalate.go, joinPrefixed, ih]
    simp [String.append_assoc]

theorem intercalate_join (s x : String) (t : List String) :
    String.intercalate s (x :: t) = x ++ joinPrefixed s t := by
  rw [String.intercalate]
  exact intercalate_go_eq s t x

/-- C8: the documentation layouts.  An endpoint's block is the level-1
heading, the optional block-quoted description, the Input section with
the input table, the Python code example embedding the 4-indented JSON of
the input example, and the Output section with the output table and the
2-indented JSON example response.  `Info` and `TaskDetailed` produce a
level-1 heading (app title falling back to app name; task title with its
optional block-quoted description) followed by an `Endpoints` section
that chains each endpoint's full block, blank-line separated, in list
order. -/
theorem markdown_documentation_spec :
    (∀ (e : Endpoint) (inTable outTable : String)
        (inData outData : List (String × JValue)),
        SchemaObject.to_markdown_table e.input_schema none = some inTable →
        Endpoint.exampleData e = some inData →
        SchemaObject.to_markdown_table e.output_schema none = some outTable →
        Endpoint.exampleResponse e = some outData →
        Endpoint.make_markdown_documentation e =
          some ("# " ++ e.name ++ "\n\n" ++
            (match e.description with
             | some d => if d.isEmpty then "" else "> " ++ d ++ "\n\n"
             | none => "") ++
            "## Input\n\n" ++ inTable ++
            "\n\n### Code Example\n\n```python\n" ++
            Endpoint.codeSnippet e (indentDataStr (jsonDumps 4 0 (.obj inData))) ++
            "\n```\n\n## Output\n\n" ++ outTable ++
            "\n\n### Example Response\n\n```json\n" ++
            jsonDumps 2 0 (.obj outData) ++ "\n```")) ∧
    (∀ (e : Endpoint) (rest : List Endpoint) (doc : String) (bs : List String),
        Endpoint.make_markdown_documentation e = some doc →
        endpointBlocks rest = some bs →
        endpointBlocks (e :: rest) = some (doc :: "" :: bs)) ∧
    (∀ (info : Info) (blocks : List String),
        endpointBlocks info.endpoints = some blocks →
        Info.make_markdown_documentation info =
          some ("# " ++ (match info.app_title with
                         | some t => if t.isEmpty then info.app_name else t
                         | none => info.app_name) ++
            "\n\n## Endpoints\n" ++ joinPrefixed "\n" blocks)) ∧
    (∀ (task : TaskDetailed) (blocks : List String),
        endpointBlocks task.endpoints = some blocks →
        TaskDetailed.make_markdown_documentation task =
          some ("# " ++ task.title ++ "\n\n" ++
            (if task.description.isEmpty then "" else "> " ++ task.description ++ "\n\n") ++
            "## Endpoints\n" ++ joinPrefixed "\n" blocks)) := by
  refine ⟨?_, ?_, ?_, ?_⟩
  · intro e inTable outTable inData outData h1 h2 h3 h4
    simp only [Endpoint.make_markdown_documentation, h1, h2, h3, h4]
    cases hd : e.description with
    | none =>
      simp only [List.cons_append, List.nil_append]
      rw [intercalate_join]
      simp only [joinPrefixed]
      simp only [String.append_assoc, String.append_empty, String.empty_append]
      rfl
    | some d =>
      by_cases hde : d.isEmpty <;>
        (simp only [hde, Bool.false_eq_true, if_false, if_true,
           List.cons_append, List.nil_append]
         rw [intercalate_join]
         simp only [joinPrefixed]
         simp only [String.append_assoc, String.append_empty, String.empty_append]
         rfl)
  · intro e rest doc bs h1 h2
    rw [endpointBlocks, h1, h2]
  · intro info blocks hb
    simp only [Info.make_markdown_documentation, hb]
    simp only [List.cons_append, List.nil_append]
    rw [intercalate_join]
    simp only [joinPrefixed]
    simp only [String.append_assoc, String.append_empty, String.empty_append]
    cases info.app_title with
    | none => rfl
    | some t =>
      by_cases ht : t.isEmpty <;> simp only [ht, Bool.false_eq_true, if_false, if_true] <;> rfl
  · intro task blocks hb
    simp only [TaskDetailed.make_markdown_documentation, hb]
    by_cases hd : task.description.isEmpty <;>
      (simp only [hd, Bool.false_eq_true, if_false, if_true,
         List.cons_append, List.nil_append]
       rw [intercalate_join]
       simp only [joinPrefixed]
       simp only [String.append_assoc, String.append_empty, String.empty_append]
       rfl)

set_option maxRecDepth 100000 in
/-- Witness for C8: an endpoint whose input and output schemas are empty
objects, a titled `Info` and a description-less `TaskDetailed`, rendered
concretely. -/
theorem markdown_documentation_spec_witness :
    Endpoint.make_markdown_documentation
      ⟨"ID", "Do", some "says hi",
        .mk (.str "object") .null .null .null (.bool false) .null .null [] (.arr []) none [],
        .mk (.str "object") .null .null .null (.bool false) .null .null [] (.arr []) none []⟩ =
      some ("# Do\n\n> says hi\n\n## Input\n\n_No fields_\n\n### Code Example\n\n```python\nfrom revrseai import RevrseAI\n\nclient = RevrseAI(\"YOUR_API_KEY\")\nresp = client.execute(\n    endpoint_id=\"ID\",\n    data=\x7b\x7d\n)\nprint(resp)\n```\n\n## Output\n\n_No fields_\n\n### Example Response\n\n```json\n\x7b\x7d\n```") ∧
    Info.make_markdown_documentation ⟨"app", none, none, some "Title", []⟩ =
      some "# Title\n\n## Endpoints\n" ∧
    TaskDetailed.make_markdown_documentation ⟨"T", "", []⟩ =
      some "# T\n\n## Endpoints\n" := by
  have h2 : Endpoint.exampleData
      ⟨"ID", "Do", some "says hi",
        .mk (.str "object") .null .null .null (.bool false) .null .null [] (.arr []) none [],
        .mk (.str "object") .null .null .null (.bool false) .null .null [] (.arr []) none []⟩ =
      some [] := by
    simp [Endpoint.exampleData, SchemaObject.example_data, SchemaObject.exampleProps,
      JValue.truthy, JValue.isStr, pyDictOf]
  have h4 : Endpoint.exampleResponse
      ⟨"ID", "Do", some "says hi",
        .mk (.str "object") .null .null .null (.bool false) .null .null [] (.arr []) none [],
        .mk (.str "object") .null .null .null (.bool false) .null .null [] (.arr []) none []⟩ =
      some [] := by
    simp [Endpoint.exampleResponse, SchemaObject.example_data, SchemaObject.exampleProps,
      JValue.truthy, JValue.isStr, pyDictOf]
  refine ⟨?_, ?_, ?_⟩
  · have h := markdown_documentation_spec.1
      ⟨"ID", "Do", some "says hi",
        .mk (.str "object") .null .null .null (.bool false) .null .null [] (.arr []) none [],
        .mk (.str "object") .null .null .null (.bool false) .null .null [] (.arr []) none []⟩
      "_No fields_" "_No fields_" [] [] rfl h2 rfl h4
    rw [h]
    simp only [jsonDumps]
    decide
  · have h := markdown_documentation_spec.2.2.1 ⟨"app", none, none, some "Title", []⟩ [] rfl
    rw [h]
    rfl
  · have h := markdown_documentation_spec.2.2.2 ⟨"T", "", []⟩ [] rfl
    rw [h]
    rfl

/-! ## C1 -/

/-- Number of entries of an object value, `none` for non-objects;
invariant under semantic equality. -/
def objLen : JValue → Option Nat
  | .obj l => some l.length
  | _ => none

theorem semEq_objLen {a b : JValue} (h : SemEq a b) : objLen a = objLen b := by
  induction h with
  | refl v => rfl
  | objPerm hp => simp [objLen, hp.length_eq]
  | objCongr hv hobj ihv ihobj =>
    simp only [objLen, Option.some.injEq, List.length_cons] at ihobj ⊢
    omega
  | trans _ _ ih1 ih2 => exact ih1.trans ih2

theorem lookup_mem {l : List (String × JValue)} {k : String} {v : JValue}
    (h : l.lookup k = some v) : (k, v) ∈ l := by
  induction l with
  | nil => simp [List.lookup] at h
  | cons p t ih =>
    obtain ⟨a, b⟩ := p
    rw [List.lookup] at h
    by_cases hk : k == a
    · simp [hk] at h
      have : k = a := by simpa using hk
      subst this h
      exact List.mem_cons_self _ _
    · simp [hk] at h
      exact List.mem_cons_of_mem _ (ih h)

theorem mem_lookup_of_nodupKeys {l : List (String × JValue)} {k : String} {v : JValue}
    (hnod : nodupKeys l = true) (h : (k, v) ∈ l) : l.lookup k = some v := by
  induction l with
  | nil => simp at h
  | cons p t ih =>
    obtain ⟨a, b⟩ := p
    rw [nodupKeys] at hnod
    simp only [Bool.and_eq_true, Bool.not_eq_true'] at hnod
    rcases List.mem_cons.mp h with h1 | h2
    · obtain ⟨h1a, h1b⟩ := Prod.mk.injEq .. ▸ h1
      subst h1a h1b
      simp [List.lookup]
    · have hne : (k == a) = false := by
        cases hcc : (k == a) with
        | false => rfl
        | true =>
          exfalso
          have hka : k = a := by simpa using hcc
          subst hka
          have : t.any (fun p => p.1 == k) = true :=
            List.any_eq_true.mpr ⟨(k, v), h2, by simp⟩
          simp [this] at hnod
      rw [List.lookup, hne]
      exact ih hnod.2 h2

theorem nodupPairs {l : List (String × JValue)} (hnod : nodupKeys l = true) :
    l.Nodup := by
  induction l with
  | nil => exact List.nodup_nil
  | cons p t ih =>
    obtain ⟨a, b⟩ := p
    rw [nodupKeys] at hnod
    simp only [Bool.and_eq_true, Bool.not_eq_true'] at hnod
    refine List.Nodup.cons ?_ (ih hnod.2)
    intro hmem
    have : t.any (fun p => p.1 == a) = true :=
      List.any_eq_true.mpr ⟨(a, b), hmem, by simp⟩
    simp [this] at hnod

theorem canon_nodup {m : List (String × JValue)} (h : canonMap m = true) :
    nodupKeys m = true := by
  rw [canonMap] at h
  simp only [Bool.and_eq_true] at h
  exact h.1

theorem canonEntries_mem : ∀ m : List (String × JValue), canonEntries m = true →
    ∀ p ∈ m, canonEntry p = true := by
  intro m
  induction m with
  | nil =>
    intro _ p hp
    simp at hp
  | cons q t ih =>
    intro he p hp
    rw [canonEntries] at he
    obtain ⟨a, b⟩ := q
    simp only [Bool.and_eq_true] at he
    rcases List.mem_cons.mp hp with h1 | h2
    · subst h1
      exact he.1
    · exact ih he.2 p h2

theorem canon_entry_of_mem {m : List (String × JValue)} {p : String × JValue}
    (h : canonMap m = true) (hp : p ∈ m) : canonEntry p = true := by
  rw [canonMap] at h
  simp only [Bool.and_eq_true] at h
  exact canonEntries_mem m h.2 p hp

/-- `SemEq` on objects from an entrywise key-preserving `SemEq`. -/
theorem semEq_obj_of_forall₂ :
    ∀ {a c : List (String × JValue)},
      List.Forall₂ (fun p q => p.1 = q.1 ∧ SemEq p.2 q.2) a c →
      SemEq (.obj a) (.obj c) := by
  intro a c h
  induction h with
  | nil => exact SemEq.refl _
  | @cons p q l₁ l₂ hr hrest ih =>
    obtain ⟨k, v⟩ := p
    obtain ⟨k', w⟩ := q
    obtain ⟨hk, hv⟩ := hr
    simp only at hk
    subst hk
    exact SemEq.objCongr hv ih

/-- The single known entry of `m` at key `k`, as a zero- or one-element
segment. -/
def optEnt (k : String) (m : List (String × JValue)) : List (String × JValue) :=
  match m.lookup k with
  | some v => [(k, v)]
  | none => []

/-- The entries of `m` at the known keys, rearranged into `to_dict`'s
fixed emission order. -/
def reorderKnown (m : List (String × JValue)) : List (String × JValue) :=
  optEnt "type" m ++ (optEnt "format" m ++ (optEnt "description" m ++
  (optEnt "title" m ++ (optEnt "nullable" m ++ (optEnt "enum" m ++
  (optEnt "example" m ++ (optEnt "properties" m ++ (optEnt "required" m ++
  optEnt "items" m))))))))

/-- The unknown-key entries of `m`, in their original order. -/
def extraOf (m : List (String × JValue)) : List (String × JValue) :=
  m.filter (fun p => !(knownFields.contains p.1))

theorem optEnt_keys_sub (k : String) (m : List (String × JValue)) :
    ((optEnt k m).map Prod.fst).Sublist [k] := by
  unfold optEnt
  cases m.lookup k <;> simp

theorem reorder_keys_sub (m : List (String × JValue)) :
    ((reorderKnown m).map Prod.fst).Sublist knownFields := by
  rw [reorderKnown]
  simp only [List.map_append]
  rw [show knownFields =
    ["type"] ++ (["format"] ++ (["description"] ++ (["title"] ++ (["nullable"] ++
      (["enum"] ++ (["example"] ++ (["properties"] ++ (["required"] ++ ["items"]))))))))
    from rfl]
  exact List.Sublist.append (optEnt_keys_sub _ _) (List.Sublist.append (optEnt_keys_sub _ _)
    (List.Sublist.append (optEnt_keys_sub _ _) (List.Sublist.append (optEnt_keys_sub _ _)
    (List.Sublist.append (optEnt_keys_sub _ _) (List.Sublist.append (optEnt_keys_sub _ _)
    (List.Sublist.append (optEnt_keys_sub _ _) (List.Sublist.append (optEnt_keys_sub _ _)
    (List.Sublist.append (optEnt_keys_sub _ _) (optEnt_keys_sub _ _)))))))))

theorem mem_optEnt {k : String} {m : List (String × JValue)} {p : String × JValue}
    (h : p ∈ optEnt k m) : p.1 = k ∧ m.lookup k = some p.2 := by
  unfold optEnt at h
  cases hl : m.lookup k with
  | none =>
    rw [hl] at h
    simp at h
  | some v =>
    rw [hl] at h
    simp at h
    subst h
    refine ⟨rfl, ?_⟩
    simpa using hl

theorem mem_reorder_known {m : List (String × JValue)} {p : String × JValue}
    (h : p ∈ reorderKnown m) : p.1 ∈ knownFields := by
  have h1 : p.1 ∈ (reorderKnown m).map Prod.fst := List.mem_map_of_mem Prod.fst h
  exact (reorder_keys_sub m).mem h1

theorem mem_reorder_extra_iff {m : List (String × JValue)}
    (hnod : nodupKeys m = true) (p : String × JValue) :
    p ∈ reorderKnown m ++ extraOf m ↔ p ∈ m := by
  constructor
  · intro h
    rcases List.mem_append.mp h with h1 | h2
    · rw [reorderKnown] at h1
      simp only [List.mem_append] at h1
      rcases h1 with h | h | h | h | h | h | h | h | h | h <;>
        (obtain ⟨hk, hl⟩ := mem_optEnt h
         have := lookup_mem hl
         obtain ⟨a, b⟩ := p
         simp only at hk
         subst hk
         exact this)
    · exact (List.mem_filter.mp h2).1
  · intro h
    by_cases hk : p.1 ∈ knownFields
    · refine List.mem_append.mpr (Or.inl ?_)
      obtain ⟨k, v⟩ := p
      have hl : m.lookup k = some v := mem_lookup_of_nodupKeys hnod h
      simp only [knownFields] at hk
      fin_cases hk <;> simp [reorderKnown, List.mem_append, optEnt, hl]
    · refine List.mem_append.mpr (Or.inr ?_)
      refine List.mem_filter.mpr ⟨h, ?_⟩
      simpa using hk

theorem perm_reorder {m : List (String × JValue)} (hnod : nodupKeys m = true) :
    (reorderKnown m ++ extraOf m).Perm m := by
  have hnodm : m.Nodup := nodupPairs hnod
  have hnodr : (reorderKnown m).Nodup :=
    List.Nodup.of_map Prod.fst ((reorder_keys_sub m).nodup (by decide))
  have hnode : (extraOf m).Nodup := nodupPairs (nodupKeys_filter hnod)
  have hdisj : List.Disjoint (reorderKnown m) (extraOf m) := by
    intro p h1 h2
    have hk := mem_reorder_known h1
    have := (List.mem_filter.mp h2).2
    simp at this
    exact this hk
  have hlhs : (reorderKnown m ++ extraOf m).Nodup :=
    List.Nodup.append hnodr hnode hdisj
  exact (List.perm_ext_iff_of_nodup hlhs hnodm).mpr (mem_reorder_extra_iff hnod)

theorem forall₂_entRel_refl (l : List (String × JValue)) :
    List.Forall₂ (fun out orig : String × JValue => out.1 = orig.1 ∧ SemEq out.2 orig.2)
      l l := by
  induction l with
  | nil => exact List.Forall₂.nil
  | cons p t ih => exact List.Forall₂.cons ⟨rfl, SemEq.refl _⟩ ih

theorem toProps_keys (props : List (String × SchemaObject)) :
    (SchemaObject.toProps props).map Prod.fst = props.map Prod.fst := by
  induction props with
  | nil =>
    rw [SchemaObject.toProps]
    rfl
  | cons p t ih =>
    obtain ⟨nm, s⟩ := p
    rw [SchemaObject.toProps]
    simp [ih]

theorem truthy_piece {m : List (String × JValue)} {k : String}
    (htv : ∀ v, m.lookup k = some v → JValue.truthy v = true) :
    List.Forall₂ (fun out orig : String × JValue => out.1 = orig.1 ∧ SemEq out.2 orig.2)
      (if ((m.lookup k).getD .null).truthy then [(k, (m.lookup k).getD .null)] else [])
      (optEnt k m) := by
  cases hl : m.lookup k with
  | none =>
    simp only [hl, optEnt, Option.getD_none, JValue.truthy, Bool.false_eq_true, if_false]
    exact List.Forall₂.nil
  | some v =>
    have ht := htv v hl
    simp only [hl, optEnt, Option.getD_some, ht, if_true]
    exact List.Forall₂.cons ⟨rfl, SemEq.refl _⟩ List.Forall₂.nil

theorem canonEntry_eq (k : String) (v : JValue) :
    canonEntry (k, v) =
      (if k == "type" || k == "format" || k == "description" || k == "title" then
        JValue.truthy v
      else if k == "nullable" then
        (match v with | .bool true => true | _ => false)
      else if k == "enum" || k == "required" then JValue.truthy v
      else if k == "example" then
        (match v with | .null => false | _ => true)
      else if k == "properties" then
        (match v with | .obj kvs => !kvs.isEmpty && canonProps kvs | _ => false)
      else if k == "items" then
        (match v with | .obj ikvs => canonMap ikvs | _ => false)
      else true) := by
  cases v with
  | null => rw [canonEntry] <;> try (intros; simp_all)
  | bool b => cases b <;> (rw [canonEntry] <;> try (intros; simp_all))
  | int n => rw [canonEntry] <;> try (intros; simp_all)
  | num q => rw [canonEntry] <;> try (intros; simp_all)
  | str s => rw [canonEntry] <;> try (intros; simp_all)
  | arr l => rw [canonEntry] <;> try (intros; simp_all)
  | obj l => rw [canonEntry] <;> try (intros; simp_all)

theorem canon_lookup_truthy {m : List (String × JValue)} {k : String} {v : JValue}
    (hc : canonMap m = true)
    (hk : k ∈ ["type", "format", "description", "title", "enum", "required"])
    (hl : m.lookup k = some v) : v.truthy = true := by
  have hce := canon_entry_of_mem hc (lookup_mem hl)
  rw [canonEntry_eq] at hce
  fin_cases hk <;> simp at hce <;> exact hce

theorem canon_lookup_nullable {m : List (String × JValue)} {v : JValue}
    (hc : canonMap m = true) (hl : m.lookup "nullable" = some v) :
    v = .bool true := by
  have hce := canon_entry_of_mem hc (lookup_mem hl)
  rw [canonEntry_eq] at hce
  simp at hce
  cases v with
  | bool b =>
    cases b with
    | true => rfl
    | false => simp at hce
  | null => simp at hce
  | int n => simp at hce
  | num q => simp at hce
  | str s => simp at hce
  | arr l => simp at hce
  | obj l => simp at hce

theorem canon_lookup_example {m : List (String × JValue)} {v : JValue}
    (hc : canonMap m = true) (hl : m.lookup "example" = some v) :
    v ≠ .null := by
  have hce := canon_entry_of_mem hc (lookup_mem hl)
  rw [canonEntry_eq] at hce
  simp at hce
  intro hv
  subst hv
  simp at hce

theorem canon_lookup_properties {m : List (String × JValue)} {v : JValue}
    (hc : canonMap m = true) (hl : m.lookup "properties" = some v) :
    ∃ kvs, v = .obj kvs ∧ kvs ≠ [] ∧ canonProps kvs = true := by
  have hce := canon_entry_of_mem hc (lookup_mem hl)
  rw [canonEntry_eq] at hce
  simp at hce
  cases v with
  | obj kvs =>
    simp only [Bool.and_eq_true] at hce
    refine ⟨kvs, rfl, ?_, hce.2⟩
    intro hnil
    subst hnil
    simp at hce
  | null => simp at hce
  | bool b => simp at hce
  | int n => simp at hce
  | num q => simp at hce
  | str s => simp at hce
  | arr l => simp at hce

theorem canon_lookup_items {m : List (String × JValue)} {v : JValue}
    (hc : canonMap m = true) (hl : m.lookup "items" = some v) :
    ∃ ikvs, v = .obj ikvs ∧ canonMap ikvs = true := by
  have hce := canon_entry_of_mem hc (lookup_mem hl)
  rw [canonEntry_eq] at hce
  simp at hce
  cases v with
  | obj ikvs => exact ⟨ikvs, rfl, hce⟩
  | null => simp at hce
  | bool b => simp at hce
  | int n => simp at hce
  | num q => simp at hce
  | str s => simp at hce
  | arr l => simp at hce

theorem typedFields_eq (t f d ti nu en ex : JValue)
    (props : List (String × SchemaObject)) (req : JValue)
    (it : Option SchemaObject) (extra : List (String × JValue)) :
    SchemaObject.typedFields (.mk t f d ti nu en ex props req it extra) =
      (if t.truthy then [("type", t)] else []) ++
      ((if f.truthy then [("format", f)] else []) ++
      ((if d.truthy then [("description", d)] else []) ++
      ((if ti.truthy then [("title", ti)] else []) ++
      ((if nu.truthy then [("nullable", .bool true)] else []) ++
      ((if en.truthy then [("enum", en)] else []) ++
      ((match ex with
        | .null => []
        | _ => [("example", ex)]) ++
      ((if props.isEmpty then []
        else [("properties", .obj (SchemaObject.toProps props))]) ++
      ((if req.truthy then [("required", req)] else []) ++
      (match it with
       | some i => [("items", .obj (SchemaObject.to_dict i))]
       | none => []))))))))) := by
  cases ex <;> cases it <;>
    (rw [SchemaObject.typedFields] <;> try (intros; simp_all))

theorem forall₂_ent_append {a b c e : List (String × JValue)}
    (h1 : List.Forall₂ (fun out orig : String × JValue =>
      out.1 = orig.1 ∧ SemEq out.2 orig.2) a b)
    (h2 : List.Forall₂ (fun out orig : String × JValue =>
      out.1 = orig.1 ∧ SemEq out.2 orig.2) c e) :
    List.Forall₂ (fun out orig : String × JValue =>
      out.1 = orig.1 ∧ SemEq out.2 orig.2) (a ++ c) (b ++ e) := by
  induction h1 with
  | nil => simpa using h2
  | cons hr _ ih => exact List.Forall₂.cons hr ih

theorem build_semEq {m : List (String × JValue)}
    {props : List (String × SchemaObject)} {itemsObj : Option SchemaObject}
    (hc : canonMap m = true)
    (hP : (∃ kvs, m.lookup "properties" = some (.obj kvs) ∧ kvs ≠ [] ∧
            List.Forall₂ (fun out orig : String × JValue =>
              out.1 = orig.1 ∧ SemEq out.2 orig.2)
              (SchemaObject.toProps props) kvs) ∨
          (m.lookup "properties" = none ∧ props = []))
    (hI : (∃ ikvs i, m.lookup "items" = some (.obj ikvs) ∧ itemsObj = some i ∧
            SemEq (.obj (SchemaObject.to_dict i)) (.obj ikvs)) ∨
          (m.lookup "items" = none ∧ itemsObj = none)) :
    SemEq (.obj (SchemaObject.to_dict (SchemaObject.build m props itemsObj)))
      (.obj m) := by
  have hnod : nodupKeys m = true := canon_nodup hc
  have hextra : (SchemaObject.build m props itemsObj)._extra = extraOf m := rfl
  have hupd : SchemaObject.to_dict (SchemaObject.build m props itemsObj) =
      SchemaObject.typedFields (SchemaObject.build m props itemsObj) ++ extraOf m := by
    rw [SchemaObject.to_dict, hextra]
    apply dictUpdate_disjoint
    · intro p hp q hq
      have hqk : q.1 ∈ knownFields := typedFields_keys _ q hq
      have hpk : p.1 ∉ knownFields := by
        have h2 := (List.mem_filter.mp hp).2
        simpa using h2
      intro he
      exact hpk (he ▸ hqk)
    · exact nodupKeys_filter hnod
  have hF1 : List.Forall₂ (fun out orig : String × JValue =>
      out.1 = orig.1 ∧ SemEq out.2 orig.2)
      (SchemaObject.typedFields (SchemaObject.build m props itemsObj))
      (reorderKnown m) := by
    simp only [SchemaObject.build]
    rw [typedFields_eq]
    simp only [reorderKnown]
    refine forall₂_ent_append ?_ (forall₂_ent_append ?_ (forall₂_ent_append ?_
      (forall₂_ent_append ?_ (forall₂_ent_append ?_ (forall₂_ent_append ?_
      (forall₂_ent_append ?_ (forall₂_ent_append ?_ (forall₂_ent_append ?_ ?_))))))))
    · exact truthy_piece (fun v hl => canon_lookup_truthy hc (by simp) hl)
    · exact truthy_piece (fun v hl => canon_lookup_truthy hc (by simp) hl)
    · exact truthy_piece (fun v hl => canon_lookup_truthy hc (by simp) hl)
    · exact truthy_piece (fun v hl => canon_lookup_truthy hc (by simp) hl)
    · cases hl : m.lookup "nullable" with
      | none =>
        simp only [hl, optEnt, Option.getD_none, JValue.truthy, Bool.false_eq_true,
          if_false]
        exact List.Forall₂.nil
      | some v =>
        have hv := canon_lookup_nullable hc hl
        subst hv
        simp only [hl, optEnt, Option.getD_some, JValue.truthy, if_true]
        exact List.Forall₂.cons ⟨rfl, SemEq.refl _⟩ List.Forall₂.nil
    · exact truthy_piece (fun v hl => canon_lookup_truthy hc (by simp) hl)
    · cases hl : m.lookup "example" with
      | none =>
        simp only [hl, optEnt, Option.getD_none]
        exact List.Forall₂.nil
      | some v =>
        have hv := canon_lookup_example hc hl
        simp only [hl, optEnt, Option.getD_some]
        cases v with
        | null => exact absurd rfl hv
        | bool b => exact List.Forall₂.cons ⟨rfl, SemEq.refl _⟩ List.Forall₂.nil
        | int n => exact List.Forall₂.cons ⟨rfl, SemEq.refl _⟩ List.Forall₂.nil
        | num q => exact List.Forall₂.cons ⟨rfl, SemEq.refl _⟩ List.Forall₂.nil
        | str s => exact List.Forall₂.cons ⟨rfl, SemEq.refl _⟩ List.Forall₂.nil
        | arr l => exact List.Forall₂.cons ⟨rfl, SemEq.refl _⟩ List.Forall₂.nil
        | obj l => exact List.Forall₂.cons ⟨rfl, SemEq.refl _⟩ List.Forall₂.nil
    · rcases hP with ⟨kvs, hl, hkne, hfa⟩ | ⟨hl, hpe⟩
      · have hlen := List.Forall₂.length_eq hfa
        have hpne : props.isEmpty = false := by
          cases hprops0 : props with
          | nil =>
            subst hprops0
            rw [SchemaObject.toProps] at hlen
            simp at hlen
            exact absurd (List.length_eq_zero.mp hlen.symm) hkne
          | cons a l => rfl
        simp only [hl, optEnt, hpne, Bool.false_eq_true, if_false]
        exact List.Forall₂.cons ⟨rfl, semEq_obj_of_forall₂ hfa⟩ List.Forall₂.nil
      · subst hpe
        simp only [hl, optEnt, List.isEmpty_nil, if_true]
        exact List.Forall₂.nil
    · cases hl : m.lookup "required" with
      | none =>
        simp only [hl, optEnt, Option.getD_none, JValue.truthy, List.isEmpty_nil,
          Bool.not_true, Bool.false_eq_true, if_false]
        exact List.Forall₂.nil
      | some v =>
        have ht := canon_lookup_truthy hc (by simp) hl
        simp only [hl, optEnt, Option.getD_some, ht, if_true]
        exact List.Forall₂.cons ⟨rfl, SemEq.refl _⟩ List.Forall₂.nil
    · rcases hI with ⟨ikvs, i, hl, hio, hsem⟩ | ⟨hl, hio⟩
      · subst hio
        simp only [hl, optEnt]
        exact List.Forall₂.cons ⟨rfl, hsem⟩ List.Forall₂.nil
      · subst hio
        simp only [hl, optEnt]
        exact List.Forall₂.nil
  rw [hupd]
  exact SemEq.trans (semEq_obj_of_forall₂ (forall₂_ent_append hF1 (forall₂_entRel_refl _)))
    (SemEq.objPerm (perm_reorder hnod))

theorem roundtrip_aux (n : Nat) :
    ∀ m : List (String × JValue), sizeOf m ≤ n → canonMap m = true →
      ∃ s, SchemaObject.from_dict m = some s ∧
        SemEq (.obj (SchemaObject.to_dict s)) (.obj m) := by
  induction n using Nat.strong_induction_on with
  | _ n IH =>
    intro m hsz hc
    have hnod : nodupKeys m = true := canon_nodup hc
    have propsLemma : ∀ kvs : List (String × JValue), sizeOf kvs < n →
        canonProps kvs = true →
        ∃ props, SchemaObject.fromProps kvs = some props ∧
          List.Forall₂ (fun out orig : String × JValue =>
            out.1 = orig.1 ∧ SemEq out.2 orig.2)
            (SchemaObject.toProps props) kvs := by
      intro kvs
      induction kvs with
      | nil =>
        intro _ _
        refine ⟨[], ?_, ?_⟩
        · rw [SchemaObject.fromProps]
        · rw [SchemaObject.toProps]
          exact List.Forall₂.nil
      | cons q rest ihk =>
        intro hks hcq
        obtain ⟨nm, v⟩ := q
        cases v with
        | obj pm =>
          rw [canonProps] at hcq
          simp only [Bool.and_eq_true] at hcq
          have hb1 : sizeOf pm < n := by simp at hks; omega
          have hb2 : sizeOf rest < n := by simp at hks; omega
          obtain ⟨si, hfdi, hsemi⟩ := IH (sizeOf pm) hb1 pm (Nat.le_refl _) hcq.1
          obtain ⟨props', hfp', hfa'⟩ := ihk hb2 hcq.2
          refine ⟨(nm, si) :: props', ?_, ?_⟩
          · rw [SchemaObject.fromProps, hfdi, hfp']
          · rw [SchemaObject.toProps]
            exact List.Forall₂.cons ⟨rfl, hsemi⟩ hfa'
        | null => rw [canonProps] at hcq <;> simp_all
        | bool b => rw [canonProps] at hcq <;> simp_all
        | int n' => rw [canonProps] at hcq <;> simp_all
        | num q' => rw [canonProps] at hcq <;> simp_all
        | str s' => rw [canonProps] at hcq <;> simp_all
        | arr xs => rw [canonProps] at hcq <;> simp_all
    cases hp : m.lookup "properties" with
    | none =>
      cases hi : m.lookup "items" with
      | none =>
        refine ⟨SchemaObject.build m [] none, ?_,
          build_semEq hc (Or.inr ⟨hp, rfl⟩) (Or.inr ⟨hi, rfl⟩)⟩
        rw [SchemaObject.from_dict]
        split
        · rename_i pkvs hp2
          rw [hp] at hp2
          cases hp2
        · rename_i v2 hg hp2
          rw [hp] at hp2
          cases hp2
        · rw [SchemaObject.fromParts]
          rw [SchemaObject.fromProps]
          split
          · rename_i heq
            cases heq
          · rename_i props' heq
            simp at heq
            subst heq
            split
            · rename_i ikvs2 hi2
              rw [hi] at hi2
              cases hi2
            all_goals rfl
      | some iv =>
        obtain ⟨ikvs, hiv, hci⟩ := canon_lookup_items hc hi
        subst hiv
        have hszik : sizeOf ikvs < n := by
          have h1 := sizeOf_lookup hi
          simp at h1
          omega
        obtain ⟨iobj, hfdi, hsemi⟩ := IH (sizeOf ikvs) hszik ikvs (Nat.le_refl _) hci
        refine ⟨SchemaObject.build m [] (some iobj), ?_,
          build_semEq hc (Or.inr ⟨hp, rfl⟩) (Or.inl ⟨ikvs, iobj, hi, rfl, hsemi⟩)⟩
        rw [SchemaObject.from_dict]
        split
        · rename_i pkvs hp2
          rw [hp] at hp2
          cases hp2
        · rename_i v2 hg hp2
          rw [hp] at hp2
          cases hp2
        · rw [SchemaObject.fromParts]
          rw [SchemaObject.fromProps]
          split
          · rename_i heq
            cases heq
          · rename_i props' heq
            simp at heq
            subst heq
            split
            · rename_i ikvs2 hi2
              rw [hi] at hi2
              simp at hi2
              subst hi2
              rw [hfdi]
            · rename_i v2 hg hi2
              rw [hi] at hi2
              simp at hi2
              exact absurd hi2.symm (hg ikvs)
            · rename_i hi2
              rw [hi] at hi2
              cases hi2
    | some pv =>
      obtain ⟨kvs, hpv, hkne, hcp⟩ := canon_lookup_properties hc hp
      subst hpv
      have hszk : sizeOf kvs < n := by
        have h1 := sizeOf_lookup hp
        simp at h1
        omega
      obtain ⟨props, hfp, hfa⟩ := propsLemma kvs hszk hcp
      cases hi : m.lookup "items" with
      | none =>
        refine ⟨SchemaObject.build m props none, ?_,
          build_semEq hc (Or.inl ⟨kvs, hp, hkne, hfa⟩) (Or.inr ⟨hi, rfl⟩)⟩
        rw [SchemaObject.from_dict]
        split
        · rename_i pkvs hp2
          rw [hp] at hp2
          simp at hp2
          subst hp2
          rw [SchemaObject.fromParts]
          rw [hfp]
          split
          · rename_i heq
            cases heq
          · rename_i props' heq
            simp at heq
            subst heq
            split
            · rename_i ikvs2 hi2
              rw [hi] at hi2
              cases hi2
            all_goals rfl
        · rename_i v2 hg hp2
          rw [hp] at hp2
          simp at hp2
          exact absurd hp2.symm (hg kvs)
        · rename_i hp2
          rw [hp] at hp2
          cases hp2
      | some iv =>
        obtain ⟨ikvs, hiv, hci⟩ := canon_lookup_items hc hi
        subst hiv
        have hszik : sizeOf ikvs < n := by
          have h1 := sizeOf_lookup hi
          simp at h1
          omega
        obtain ⟨iobj, hfdi, hsemi⟩ := IH (sizeOf ikvs) hszik ikvs (Nat.le_refl _) hci
        refine ⟨SchemaObject.build m props (some iobj), ?_,
          build_semEq hc (Or.inl ⟨kvs, hp, hkne, hfa⟩)
            (Or.inl ⟨ikvs, iobj, hi, rfl, hsemi⟩)⟩
        rw [SchemaObject.from_dict]
        split
        · rename_i pkvs hp2
          rw [hp] at hp2
          simp at hp2
          subst hp2
          rw [SchemaObject.fromParts]
          rw [hfp]
          split
          · rename_i heq
            cases heq
          · rename_i props' heq
            simp at heq
            subst heq
            split
            · rename_i ikvs2 hi2
              rw [hi] at hi2
              simp at hi2
              subst hi2
              rw [hfdi]
            · rename_i v2 hg hi2
              rw [hi] at hi2
              simp at hi2
              exact absurd hi2.symm (hg ikvs)
            · rename_i hi2
              rw [hi] at hi2
              cases hi2
        · rename_i v2 hg hp2
          rw [hp] at hp2
          simp at hp2
          exact absurd hp2.symm (hg kvs)
        · rename_i hp2
          rw [hp] at hp2
          cases hp2

/-- C1 counterexample to the unrestricted claim: the mapping
`\x7b"nullable": false\x7d` parses successfully, but `to_dict` emits
`nullable` only when it is truthy, so the round trip returns the empty
mapping, which is not semantically equal to the one-entry input. -/
theorem roundtrip_counterexample :
    ∃ s, SchemaObject.from_dict [("nullable", JValue.bool false)] = some s ∧
      ¬ SemEq (.obj (SchemaObject.to_dict s))
        (.obj [("nullable", JValue.bool false)]) := by
  refine ⟨.mk .null .null .null .null (.bool false) .null .null [] (.arr []) none [],
    ?_, ?_⟩
  · simp [SchemaObject.from_dict, SchemaObject.fromParts, SchemaObject.fromProps,
      SchemaObject.build, List.lookup, knownFields]
  · intro hsem
    have h := semEq_objLen hsem
    have hd : SchemaObject.to_dict
        (.mk .null .null .null .null (.bool false) .null .null [] (.arr []) none []) =
        [] := by
      rw [SchemaObject.to_dict]
      rw [typedFields_eq]
      simp [JValue.truthy, dictUpdate, SchemaObject._extra]
    rw [hd] at h
    simp [objLen] at h

/-- C1 (corrected): round-tripping `to_dict` after `from_dict` over a
canonical schema mapping `m` — duplicate-free keys, and every known key
that is present holds a value the emitter reproduces (truthy
`type`/`format`/`description`/`title`/`enum`/`required`, `nullable`
exactly `true`, non-null `example`, `properties` a non-empty mapping of
canonical mappings, `items` a canonical mapping; unknown keys are
unrestricted) — yields a mapping semantically equal to `m`: the same keys
and values up to reordering of object entries, with unknown keys passed
through, and the emitted `properties` object preserving the insertion
order of the input's property names.  The unrestricted claim over all
mappings is refuted by `roundtrip_counterexample`: falsy known fields such
as `nullable: false` are dropped by `to_dict`. -/
theorem roundtrip_canonical (m : List (String × JValue)) (hc : canonMap m = true) :
    ∃ s, SchemaObject.from_dict m = some s ∧
      SemEq (.obj (SchemaObject.to_dict s)) (.obj m) ∧
      ∀ kvs, m.lookup "properties" = some (.obj kvs) →
        (SchemaObject.toProps s.properties).map Prod.fst = kvs.map Prod.fst := by
  obtain ⟨s, hfd, hsem⟩ := roundtrip_aux (sizeOf m) m (Nat.le_refl _) hc
  refine ⟨s, hfd, hsem, ?_⟩
  intro kvs hp
  obtain ⟨props, itemsObj, hs, hcase, -⟩ := from_dict_shape hfd
  rcases hcase with ⟨kvs0, hp0, hfp0⟩ | ⟨hp0, -⟩
  · rw [hp] at hp0
    simp at hp0
    subst hp0
    have hprops : s.properties = props := by
      rw [hs]
      rfl
    rw [hprops, toProps_keys, fromProps_eq hfp0]
    rw [List.map_map]
    exact List.map_congr_left (fun p _ => rfl)
  · rw [hp] at hp0
    cases hp0

/-- Witness for C1: a concrete canonical mapping — an object schema with
one integer property and one unknown passthrough key — satisfies
`canonMap`, and the corrected round-trip theorem applies to it. -/
theorem roundtrip_canonical_witness :
    canonMap [("type", JValue.str "object"),
      ("properties", JValue.obj [("x", JValue.obj [("type", JValue.str "integer")])]),
      ("custom", JValue.str "keep")] = true ∧
    (∃ s, SchemaObject.from_dict [("type", JValue.str "object"),
        ("properties", JValue.obj [("x", JValue.obj [("type", JValue.str "integer")])]),
        ("custom", JValue.str "keep")] = some s ∧
      SemEq (.obj (SchemaObject.to_dict s))
        (.obj [("type", JValue.str "object"),
          ("properties", JValue.obj [("x", JValue.obj [("type", JValue.str "integer")])]),
          ("custom", JValue.str "keep")]) ∧
      ∀ kvs, ([("type", JValue.str "object"),
          ("properties", JValue.obj [("x", JValue.obj [("type", JValue.str "integer")])]),
          ("custom", JValue.str "keep")] : List (String × JValue)).lookup "properties" =
          some (.obj kvs) →
        (SchemaObject.toProps s.properties).map Prod.fst = kvs.map Prod.fst) := by
  have hcw : canonMap [("type", JValue.str "object"),
      ("properties", JValue.obj [("x", JValue.obj [("type", JValue.str "integer")])]),
      ("custom", JValue.str "keep")] = true := by
    simp [canonMap, nodupKeys, canonEntries, canonEntry_eq, canonProps, JValue.truthy]
    decide
  exact ⟨hcw, roundtrip_canonical _ hcw⟩
